import Mathlib

/-!
Verification of the gap-filling imputation engine of sg-weather-analysis
(src/scripts/impute.py), shallowly embedded over exact rationals: a missing
reading (NaN in the source) is modelled as `none`, a valid reading as
`some q`.  Provenance strings "var:strategy" are modelled as pairs
`Var × Strat`; the per-row comma-joined string of the source corresponds to
the in-order list of pairs accumulated for that row.
-/

set_option maxHeartbeats 1600000

/-- The variables the engine imputes (IMPUTE_VARS in the source). -/
inductive Var where
  | temperature
  | rh
  | wind_speed
deriving DecidableEq, Repr

/-- Imputation strategies: A = linear interpolation, B = diurnal matching. -/
inductive Strat where
  | A
  | B
deriving DecidableEq, Repr

/-- One row of a station's hourly series, after load_and_clean added the
month and hour columns.  Only the fields the imputation engine reads are
kept; the date is carried as an abstract hour count. -/
structure Row where
  station : Nat
  date : Nat
  month : Nat
  hour : Nat
  temperature : Option ℚ
  rh : Option ℚ
  wind_speed : Option ℚ
deriving DecidableEq, Repr

/-- Column access df_station[var] for one row. -/
def Row.getVar (r : Row) : Var → Option ℚ
  | Var.temperature => r.temperature
  | Var.rh => r.rh
  | Var.wind_speed => r.wind_speed

/-- Column assignment df_station.iloc[i, get_loc(var)] = v for one row. -/
def Row.setVar (r : Row) : Var → Option ℚ → Row
  | Var.temperature, v => { r with temperature := v }
  | Var.rh, v => { r with rh := v }
  | Var.wind_speed, v => { r with wind_speed := v }

/-- IMPUTE_VARS = ["temperature", "rh", "wind_speed"]. -/
def IMPUTE_VARS : List Var := [Var.temperature, Var.rh, Var.wind_speed]

/-- The diurnal-profile dictionaries: per variable, a partial map from
(station, month, hour) to the mean value ("no data" = none, the behaviour
of profiles[var].get(key, nan) combined with NaN group means). -/
abbrev Profiles := Var → Nat × Nat × Nat → Option ℚ

/-- Number of leading true entries of a boolean list. -/
def leadTrue : List Bool → Nat
  | true :: rest => leadTrue rest + 1
  | _ => 0

/-- Worker for find_gaps: scan the missing-mask left to right from absolute
position i, emitting (start, length) for each maximal run of true. -/
def find_gaps_from : List Bool → Nat → List (Nat × Nat)
  | [], _ => []
  | false :: rest, i => find_gaps_from rest (i + 1)
  | true :: rest, i =>
      (i, leadTrue rest + 1) ::
        find_gaps_from (rest.drop (leadTrue rest)) (i + (leadTrue rest + 1))
termination_by m _ => m.length
decreasing_by
  all_goals simp [List.length_drop]
  all_goals omega

/-- Structural single-pass scanner equivalent to find_gaps_from: the state
carries the start of the run currently being consumed, if any. -/
def find_gaps_go : List Bool → Nat → Option Nat → List (Nat × Nat)
  | [], _, none => []
  | [], i, some s => [(s, i - s)]
  | b :: rest, i, none =>
      if b then find_gaps_go rest (i + 1) (some i) else find_gaps_go rest (i + 1) none
  | b :: rest, i, some s =>
      if b then find_gaps_go rest (i + 1) (some s)
      else (s, i - s) :: find_gaps_go rest (i + 1) none

/-- find_gaps(is_missing): list of (start_idx, length) for each contiguous
block of True. -/
def find_gaps (m : List Bool) : List (Nat × Nat) := find_gaps_go m 0 none

/-- build_diurnal_profiles: mean of the valid observations of each variable
grouped by (station, month, hour); a group with no valid observation acts
as "no data". -/
def build_diurnal_profiles (df : List Row) : Profiles := fun var key =>
  let vals := df.filterMap fun r =>
    if r.station = key.1 ∧ r.month = key.2.1 ∧ r.hour = key.2.2 then r.getVar var else none
  if vals.length = 0 then none else some (vals.sum / (vals.length : ℚ))

/-- np.linspace(a, b, n) in exact arithmetic (division by zero in ℚ gives 0,
which reproduces the numpy special case linspace(a, b, 1) = [a]). -/
def linspace (a b : ℚ) (n : Nat) : List ℚ :=
  (List.range n).map fun (i : Nat) => a + (b - a) * (i : ℚ) / ((n : ℚ) - 1)

/-- Physical-bounds clipping applied to filled values: rh to [0, 100],
wind speed to [0, ∞), temperature unconstrained. -/
def clipVar : Var → ℚ → ℚ
  | Var.rh, x => max 0 (min x 100)
  | Var.wind_speed, x => max 0 x
  | Var.temperature, x => x

/-- station = df_station.iloc[0]["station"]. -/
def bStation (rows : List Row) : Nat := ((rows.head?).map Row.station).getD 0

/-- Valid value just before index s (none at the series edge or when the
cell is missing). -/
def beforeValAt (rows : List Row) (var : Var) (s : Nat) : Option ℚ :=
  if 0 < s then (rows.get? (s - 1)).bind (fun r => r.getVar var) else none

/-- Valid value just after the block [s, s+l) (none at the series edge or
when the cell is missing). -/
def afterValAt (rows : List Row) (var : Var) (s l : Nat) : Option ℚ :=
  if s + l < rows.length then (rows.get? (s + l)).bind (fun r => r.getVar var) else none

/-- Profile lookups for each position of the gap [s, s+l). -/
def bProfileVals (rows : List Row) (s l : Nat) (var : Var) (profiles : Profiles) :
    List (Option ℚ) :=
  (List.range l).map fun i =>
    (rows.get? (s + i)).bind fun r => profiles var (bStation rows, r.month, r.hour)

/-- Profile lookup at the row before the gap, only when the before value is
present. -/
def bBeforeProfile (rows : List Row) (s : Nat) (var : Var) (profiles : Profiles) : Option ℚ :=
  (beforeValAt rows var s).bind fun _ =>
    (rows.get? (s - 1)).bind fun r => profiles var (bStation rows, r.month, r.hour)

/-- Profile lookup at the row after the gap, only when the after value is
present. -/
def bAfterProfile (rows : List Row) (s l : Nat) (var : Var) (profiles : Profiles) : Option ℚ :=
  (afterValAt rows var s l).bind fun _ =>
    (rows.get? (s + l)).bind fun r => profiles var (bStation rows, r.month, r.hour)

/-- before_offset = before_val - before_profile when both are present. -/
def bBeforeOffset (rows : List Row) (s : Nat) (var : Var) (profiles : Profiles) : Option ℚ :=
  match beforeValAt rows var s, bBeforeProfile rows s var profiles with
  | some bv, some bp => some (bv - bp)
  | _, _ => none

/-- after_offset = after_val - after_profile when both are present. -/
def bAfterOffset (rows : List Row) (s l : Nat) (var : Var) (profiles : Profiles) : Option ℚ :=
  match afterValAt rows var s l, bAfterProfile rows s l var profiles with
  | some av, some ap => some (av - ap)
  | _, _ => none

/-- The offset applied at gap position i: blend of before/after offsets with
weights np.linspace(1, 0, l), or the single available offset, or 0. -/
def bOffsets (rows : List Row) (s l : Nat) (var : Var) (profiles : Profiles) (i : Nat) : ℚ :=
  match bBeforeOffset rows s var profiles, bAfterOffset rows s l var profiles with
  | some b, some a =>
      let w := (linspace 1 0 l).getD i 0
      w * b + (1 - w) * a
  | some b, none => b
  | none, some a => a
  | none, none => 0

/-- impute_gap_strategy_b before the physical-bounds clip: profile values
plus blended offsets, or all-missing when no position has profile data. -/
def strategy_b_raw (rows : List Row) (s l : Nat) (var : Var) (profiles : Profiles) :
    List (Option ℚ) :=
  let profile_vals := bProfileVals rows s l var profiles
  if profile_vals.all Option.isNone then List.replicate l none
  else (List.range l).map fun i =>
    (profile_vals.getD i none).map fun p => p + bOffsets rows s l var profiles i

/-- impute_gap_strategy_b: diurnal cycle matching for the gap [s, s+l)
(called with indices = range(start, start+length) in the source). -/
def impute_gap_strategy_b (rows : List Row) (s l : Nat) (var : Var) (profiles : Profiles) :
    List (Option ℚ) :=
  (strategy_b_raw rows s l var profiles).map (Option.map (clipVar var))

/-- Strategy A interpolation values before clipping: np.linspace(before,
after, length+2)[1:-1], or a flat extension of the single available
boundary, or none when neither boundary value is present. -/
def strategyA (rows : List Row) (var : Var) (s l : Nat) : Option (List ℚ) :=
  match beforeValAt rows var s, afterValAt rows var s l with
  | some b, some a => some (((linspace b a (l + 2)).drop 1).take l)
  | some b, none => some (List.replicate l b)
  | none, some a => some (List.replicate l a)
  | none, none => none

/-- df_station.iloc[indices, get_loc(var)] = vals, for the consecutive
indices starting at s. -/
def setCells : List Row → Var → Nat → List (Option ℚ) → List Row
  | [], _, _, _ => []
  | r :: rest, _, 0, [] => r :: rest
  | r :: rest, var, 0, v :: vs => r.setVar var v :: setCells rest var 0 vs
  | r :: rest, var, s + 1, vs => r :: setCells rest var s vs

/-- Append the method tag to methods[idx] for each idx in [s, s+l). -/
def addTags : List (List (Var × Strat)) → Nat → Nat → (Var × Strat) → List (List (Var × Strat))
  | [], _, _, _ => []
  | m :: rest, 0, 0, _ => m :: rest
  | m :: rest, 0, l + 1, tag => (m ++ [tag]) :: addTags rest 0 l tag
  | m :: rest, s + 1, l, tag => m :: addTags rest s l tag

/-- Working state of impute_station: the mutable station frame plus the
per-row method tags. -/
abbrev StState := List Row × List (List (Var × Strat))

/-- Body of the per-gap loop of impute_station: skip gaps longer than 24,
dispatch to Strategy A (length ≤ 2, with clipping before assignment) or
Strategy B, skip unresolvable gaps, record the method tag. -/
def gapStep (profiles : Profiles) (var : Var) (st : StState) (g : Nat × Nat) : StState :=
  if 24 < g.2 then st
  else if g.2 ≤ 2 then
    match strategyA st.1 var g.1 g.2 with
    | none => st
    | some interp =>
        (setCells st.1 var g.1 ((interp.map (clipVar var)).map some),
         addTags st.2 g.1 g.2 (var, Strat.A))
  else
    let filled := impute_gap_strategy_b st.1 g.1 g.2 var profiles
    if filled.all Option.isNone then st
    else (setCells st.1 var g.1 filled, addTags st.2 g.1 g.2 (var, Strat.B))

/-- Missing-mask of one variable's column: df_station[var].isna(). -/
def maskOf (rows : List Row) (var : Var) : List Bool :=
  rows.map fun r => (r.getVar var).isNone

/-- One variable's pass of impute_station: gaps are scanned once from the
column as it stands when the pass starts, then processed left to right on
the mutating state. -/
def processVar (profiles : Profiles) (st : StState) (var : Var) : StState :=
  (find_gaps (maskOf st.1 var)).foldl (gapStep profiles var) st

/-- impute_station: apply both strategies to one station's frame, variable
by variable in configuration order, starting from empty method records. -/
def impute_station (profiles : Profiles) (rows : List Row) : StState :=
  IMPUTE_VARS.foldl (processVar profiles) (rows, List.replicate rows.length [])

/-- The engine run of main: build the diurnal profiles once from the full
dataset, then impute every station with that fixed profile table. -/
def imputeRun (stations : List (List Row)) : List StState :=
  stations.map (impute_station (build_diurnal_profiles stations.flatten))

/-- Specification value of one processed gap: what the engine writes into
[s, s+l) of the given base frame, with its strategy letter, or none when
the gap is skipped (too long or unresolvable). -/
def gapFill (base : List Row) (profiles : Profiles) (var : Var) (s l : Nat) :
    Option (List (Option ℚ) × Strat) :=
  if 24 < l then none
  else if l ≤ 2 then
    (strategyA base var s l).map fun vs => ((vs.map (clipVar var)).map some, Strat.A)
  else
    let filled := impute_gap_strategy_b base s l var profiles
    if filled.all Option.isNone then none else some (filled, Strat.B)

/-- Specification of the cell outcome at index i relative to a gap list:
the written value and strategy of the unique gap of gl covering i, if that
gap was processed. -/
def tagValFrom (base : List Row) (profiles : Profiles) (var : Var)
    (gl : List (Nat × Nat)) (i : Nat) : Option (Option ℚ × Strat) :=
  gl.findSome? fun g =>
    if g.1 ≤ i ∧ i < g.1 + g.2 then
      (gapFill base profiles var g.1 g.2).map fun p => (p.1.getD (i - g.1) none, p.2)
    else none

/-- Specification of the cell outcome at index i for one variable of one
station frame. -/
def tagVal (base : List Row) (profiles : Profiles) (var : Var) (i : Nat) :
    Option (Option ℚ × Strat) :=
  tagValFrom base profiles var (find_gaps (maskOf base var)) i

/-- Specified value of variable v at index i after imputing one station. -/
def specCell (rows : List Row) (profiles : Profiles) (v : Var) (i : Nat) : Option (Option ℚ) :=
  (rows.get? i).map fun r =>
    match tagVal rows profiles v i with
    | some p => p.1
    | none => r.getVar v

/-- Specified method record of index i after imputing one station: one tag
per variable that filled (or partially filled) a gap covering i, in
configuration order. -/
def specTags (rows : List Row) (profiles : Profiles) (i : Nat) : List (Var × Strat) :=
  IMPUTE_VARS.filterMap fun v => (tagVal rows profiles v i).map fun p => (v, p.2)

/-! ### Properties of the gap scanner -/

theorem leadTrue_le (m : List Bool) : leadTrue m ≤ m.length := by
  induction m with
  | nil => simp [leadTrue]
  | cons b rest ih => cases b <;> simp [leadTrue] <;> omega

theorem leadTrue_true (m : List Bool) : ∀ j, j < leadTrue m → m.get? j = some true := by
  induction m with
  | nil => simp [leadTrue]
  | cons b rest ih =>
      cases b with
      | false => simp [leadTrue]
      | true =>
          intro j hj
          cases j with
          | zero => rfl
          | succ t =>
              rw [List.get?_cons_succ]
              exact ih t (by simpa [leadTrue] using hj)

theorem leadTrue_stop (m : List Bool) : m.get? (leadTrue m) ≠ some true := by
  induction m with
  | nil => simp [leadTrue]
  | cons b rest ih =>
      cases b with
      | false => simp [leadTrue]
      | true => simpa [leadTrue] using ih

theorem find_gaps_go_open (m : List Bool) :
    ∀ i s, s ≤ i →
      find_gaps_go m i (some s) =
        (s, i - s + leadTrue m) :: find_gaps_go (m.drop (leadTrue m)) (i + leadTrue m) none := by
  induction m with
  | nil => intro i s hs; simp [find_gaps_go, leadTrue]
  | cons b rest ih =>
      intro i s hs
      cases b with
      | false => simp [find_gaps_go, leadTrue]
      | true =>
          have h1 : i + 1 - s + leadTrue rest = i - s + (leadTrue rest + 1) := by omega
          have h2 : i + 1 + leadTrue rest = i + (leadTrue rest + 1) := by omega
          simp only [leadTrue, List.drop_succ_cons]
          show find_gaps_go rest (i + 1) (some s) = _
          rw [ih (i + 1) s (by omega), h1, h2]

theorem find_gaps_go_eq_from (m : List Bool) (i : Nat) :
    find_gaps_go m i none = find_gaps_from m i := by
  induction m, i using find_gaps_from.induct with
  | case1 i => simp [find_gaps_go, find_gaps_from]
  | case2 rest i ih =>
      show find_gaps_go rest (i + 1) none = _
      simp only [find_gaps_from]
      exact ih
  | case3 rest i ih =>
      show find_gaps_go rest (i + 1) (some i) = _
      simp only [find_gaps_from]
      rw [find_gaps_go_open rest (i + 1) i (by omega)]
      have h1 : i + 1 - i + leadTrue rest = leadTrue rest + 1 := by omega
      have h2 : i + 1 + leadTrue rest = i + (leadTrue rest + 1) := by omega
      rw [h1, h2, ih]

/-- Soundness and maximality of a scanned gap with respect to the mask. -/
def GapOK (m : List Bool) (g : Nat × Nat) : Prop :=
  1 ≤ g.2 ∧ g.1 + g.2 ≤ m.length ∧
  (∀ j, g.1 ≤ j → j < g.1 + g.2 → m.get? j = some true) ∧
  (g.1 = 0 ∨ m.get? (g.1 - 1) = some false) ∧
  (g.1 + g.2 = m.length ∨ m.get? (g.1 + g.2) = some false)

theorem not_true_cases {o : Option Bool} (h : o ≠ some true) : o = none ∨ o = some false := by
  cases o with
  | none => exact Or.inl rfl
  | some b => cases b with
      | false => exact Or.inr rfl
      | true => exact absurd rfl h

theorem find_gaps_from_spec (m : List Bool) (i : Nat) :
    ∀ g, g ∈ find_gaps_from m i →
      i ≤ g.1 ∧ 1 ≤ g.2 ∧ g.1 + g.2 ≤ i + m.length ∧
      (∀ j, g.1 ≤ j → j < g.1 + g.2 → m.get? (j - i) = some true) ∧
      (g.1 = i ∨ m.get? (g.1 - 1 - i) = some false) ∧
      (g.1 + g.2 = i + m.length ∨ m.get? (g.1 + g.2 - i) = some false) := by
  induction m, i using find_gaps_from.induct with
  | case1 i => intro g hg; simp [find_gaps_from] at hg
  | case2 rest i ih =>
      intro g hg
      simp only [find_gaps_from] at hg
      obtain ⟨h1, h2, h3, h4, h5, h6⟩ := ih g hg
      refine ⟨by omega, h2, by simp; omega, ?_, ?_, ?_⟩
      · intro j hj1 hj2
        have hji : 1 ≤ j - i := by omega
        have : j - i = (j - (i + 1)) + 1 := by omega
        rw [this, List.get?_cons_succ]
        exact h4 j hj1 hj2
      · rcases Nat.eq_or_lt_of_le h1 with heq | hlt
        · exact Or.inr (by rw [← heq]; simp)
        · rcases h5 with h5 | h5
          · exact Or.inr (by rw [h5]; simp)
          · refine Or.inr ?_
            have : g.1 - 1 - i = (g.1 - 1 - (i + 1)) + 1 := by omega
            rw [this, List.get?_cons_succ]
            exact h5
      · rcases h6 with h6 | h6
        · exact Or.inl (by simp; omega)
        · refine Or.inr ?_
          have : g.1 + g.2 - i = (g.1 + g.2 - (i + 1)) + 1 := by omega
          rw [this, List.get?_cons_succ]
          exact h6
  | case3 rest i ih =>
      intro g hg
      simp only [find_gaps_from, List.mem_cons] at hg
      rcases hg with hg | hg
      · subst hg
        refine ⟨le_refl _, by simp, ?_, ?_, Or.inl rfl, ?_⟩
        · have := leadTrue_le rest
          simp
          omega
        · intro j hj1 hj2
          simp only at hj1 hj2
          rcases Nat.eq_or_lt_of_le hj1 with heq | hlt
          · rw [← heq]; simp
          · have : j - i = (j - i - 1) + 1 := by omega
            rw [this, List.get?_cons_succ]
            exact leadTrue_true rest _ (by omega)
        · simp only
          have hidx : i + (leadTrue rest + 1) - i = leadTrue rest + 1 := by omega
          rw [hidx, List.get?_cons_succ]
          rcases not_true_cases (leadTrue_stop rest) with h | h
          · refine Or.inl ?_
            rw [List.get?_eq_none] at h
            have := leadTrue_le rest
            simp
            omega
          · exact Or.inr h
      · obtain ⟨h1, h2, h3, h4, h5, h6⟩ := ih g hg
        have hlen : (rest.drop (leadTrue rest)).length = rest.length - leadTrue rest := by
          simp
        have hlt := leadTrue_le rest
        have hne : g.1 ≠ i + (leadTrue rest + 1) := by
          intro heq
          have := h4 g.1 (le_refl _) (by omega)
          rw [heq] at this
          simp only [Nat.sub_self] at this
          rw [List.get?_drop] at this
          exact leadTrue_stop rest (by simpa using this)
        refine ⟨by omega, h2, by simp; omega, ?_, ?_, ?_⟩
        · intro j hj1 hj2
          have := h4 j hj1 hj2
          rw [List.get?_drop] at this
          have hidx : j - i = (leadTrue rest + (j - (i + (leadTrue rest + 1)))) + 1 := by omega
          rw [hidx, List.get?_cons_succ]
          exact this
        · rcases h5 with h5 | h5
          · exact absurd h5 hne
          · refine Or.inr ?_
            rw [List.get?_drop] at h5
            have hidx : g.1 - 1 - i =
                (leadTrue rest + (g.1 - 1 - (i + (leadTrue rest + 1)))) + 1 := by omega
            rw [hidx, List.get?_cons_succ]
            exact h5
        · rcases h6 with h6 | h6
          · refine Or.inl ?_
            rw [hlen] at h6
            simp
            omega
          · refine Or.inr ?_
            rw [List.get?_drop] at h6
            have hidx : g.1 + g.2 - i =
                (leadTrue rest + (g.1 + g.2 - (i + (leadTrue rest + 1)))) + 1 := by omega
            rw [hidx, List.get?_cons_succ]
            exact h6

theorem find_gaps_spec (m : List Bool) (g : Nat × Nat) (hg : g ∈ find_gaps m) : GapOK m g := by
  rw [find_gaps, find_gaps_go_eq_from] at hg
  obtain ⟨h1, h2, h3, h4, h5, h6⟩ := find_gaps_from_spec m 0 g hg
  refine ⟨h2, by omega, ?_, ?_, ?_⟩
  · intro j hj1 hj2
    simpa using h4 j hj1 hj2
  · simpa using h5
  · simpa using h6

theorem find_gaps_from_pairwise (m : List Bool) (i : Nat) :
    (find_gaps_from m i).Pairwise (fun g g' => g.1 + g.2 ≤ g'.1) := by
  induction m, i using find_gaps_from.induct with
  | case1 i => simp [find_gaps_from]
  | case2 rest i ih => simp only [find_gaps_from]; exact ih
  | case3 rest i ih =>
      simp only [find_gaps_from]
      refine List.Pairwise.cons ?_ ih
      intro g hg
      have := (find_gaps_from_spec _ _ g hg).1
      simp only
      omega

theorem find_gaps_pairwise (m : List Bool) :
    (find_gaps m).Pairwise (fun g g' => g.1 + g.2 ≤ g'.1) := by
  rw [find_gaps, find_gaps_go_eq_from]
  exact find_gaps_from_pairwise m 0

/-! ### Row and cell-update lemmas -/

theorem Row.getVar_setVar_self (r : Row) (v : Var) (x : Option ℚ) :
    (r.setVar v x).getVar v = x := by
  cases v <;> rfl

theorem Row.getVar_setVar_ne (r : Row) {v w : Var} (x : Option ℚ) (h : w ≠ v) :
    (r.setVar v x).getVar w = r.getVar w := by
  cases v <;> cases w <;> first | rfl | exact absurd rfl h

theorem Row.setVar_setVar (r : Row) (v : Var) (x y : Option ℚ) :
    (r.setVar v x).setVar v y = r.setVar v y := by
  cases v <;> rfl

theorem Row.setVar_getVar_self (r : Row) (v : Var) : r.setVar v (r.getVar v) = r := by
  cases v <;> rfl

theorem Row.station_setVar (r : Row) (v : Var) (x : Option ℚ) :
    (r.setVar v x).station = r.station := by
  cases v <;> rfl

theorem Row.date_setVar (r : Row) (v : Var) (x : Option ℚ) :
    (r.setVar v x).date = r.date := by
  cases v <;> rfl

theorem Row.month_setVar (r : Row) (v : Var) (x : Option ℚ) :
    (r.setVar v x).month = r.month := by
  cases v <;> rfl

theorem Row.hour_setVar (r : Row) (v : Var) (x : Option ℚ) :
    (r.setVar v x).hour = r.hour := by
  cases v <;> rfl

theorem Row.setVar_eq_of_diff {r r' : Row} {v : Var} (h : r' = r.setVar v (r'.getVar v))
    (x : Option ℚ) : r'.setVar v x = r.setVar v x := by
  rw [h, Row.setVar_setVar]

theorem length_setCells (var : Var) :
    ∀ (rows : List Row) (s : Nat) (vals : List (Option ℚ)),
      (setCells rows var s vals).length = rows.length := by
  intro rows
  induction rows with
  | nil => intro s vals; rfl
  | cons r rest ih =>
      intro s vals
      cases s with
      | zero =>
          cases vals with
          | nil => rfl
          | cons v vs => simp [setCells, ih]
      | succ u => simp [setCells, ih]

theorem get?_setCells (var : Var) :
    ∀ (rows : List Row) (s : Nat) (vals : List (Option ℚ)) (i : Nat),
      (setCells rows var s vals).get? i =
        if s ≤ i ∧ i < s + vals.length then
          (rows.get? i).map (fun r => r.setVar var (vals.getD (i - s) none))
        else rows.get? i := by
  intro rows
  induction rows with
  | nil =>
      intro s vals i
      simp [setCells]
  | cons r rest ih =>
      intro s vals i
      cases s with
      | zero =>
          cases vals with
          | nil =>
              have : ¬ (0 ≤ i ∧ i < 0 + ([] : List (Option ℚ)).length) := by simp
              rw [setCells, if_neg this]
          | cons v vs =>
              cases i with
              | zero => simp [setCells]
              | succ t =>
                  rw [setCells]
                  rw [List.get?_cons_succ, List.get?_cons_succ, ih 0 vs t]
                  by_cases h : t < vs.length
                  · rw [if_pos (by omega), if_pos (by simp; omega)]
                    simp
                  · rw [if_neg (by omega), if_neg (by simp; omega)]
      | succ u =>
          cases i with
          | zero =>
              rw [setCells, if_neg (by omega)]
              rfl
          | succ t =>
              rw [setCells]
              rw [List.get?_cons_succ, List.get?_cons_succ, ih u vals t]
              by_cases h : u ≤ t ∧ t < u + vals.length
              · rw [if_pos h, if_pos (by omega)]
                have : t + 1 - (u + 1) = t - u := by omega
                rw [this]
              · rw [if_neg h, if_neg (by omega)]

theorem length_addTags (tag : Var × Strat) :
    ∀ (methods : List (List (Var × Strat))) (s l : Nat),
      (addTags methods s l tag).length = methods.length := by
  intro methods
  induction methods with
  | nil => intro s l; rfl
  | cons m rest ih =>
      intro s l
      cases s with
      | zero =>
          cases l with
          | zero => rfl
          | succ k => simp [addTags, ih]
      | succ u => simp [addTags, ih]

theorem get?_addTags (tag : Var × Strat) :
    ∀ (methods : List (List (Var × Strat))) (s l i : Nat),
      (addTags methods s l tag).get? i =
        if s ≤ i ∧ i < s + l then (methods.get? i).map (fun mm => mm ++ [tag])
        else methods.get? i := by
  intro methods
  induction methods with
  | nil =>
      intro s l i
      simp [addTags]
  | cons m rest ih =>
      intro s l i
      cases s with
      | zero =>
          cases l with
          | zero =>
              have : ¬ (0 ≤ i ∧ i < 0 + 0) := by omega
              rw [addTags, if_neg this]
          | succ k =>
              cases i with
              | zero => simp [addTags]
              | succ t =>
                  rw [addTags]
                  rw [List.get?_cons_succ, List.get?_cons_succ, ih 0 k t]
                  by_cases h : t < k
                  · rw [if_pos (by omega), if_pos (by omega)]
                  · rw [if_neg (by omega), if_neg (by omega)]
      | succ u =>
          cases i with
          | zero =>
              rw [addTags, if_neg (by omega)]
              rfl
          | succ t =>
              rw [addTags]
              rw [List.get?_cons_succ, List.get?_cons_succ, ih u l t]
              by_cases h : u ≤ t ∧ t < u + l
              · rw [if_pos h, if_pos (by omega)]
              · rw [if_neg h, if_neg (by omega)]

theorem findSome?_eq_of_unique {α β : Type} {l : List α} {f : α → Option β} {a : α}
    (ha : a ∈ l) (hu : ∀ b ∈ l, b ≠ a → f b = none) : l.findSome? f = f a := by
  induction l with
  | nil => simp at ha
  | cons x xs ih =>
      rw [List.findSome?_cons]
      by_cases hxa : x = a
      · subst hxa
        cases hfx : f x with
        | some v => simp
        | none =>
            show List.findSome? f xs = none
            refine List.findSome?_eq_none.mpr ?_
            intro b hb
            by_cases hbx : b = x
            · rw [hbx, hfx]
            · exact hu b (List.mem_cons_of_mem _ hb) hbx
      · rw [hu x (List.mem_cons_self _ _) hxa]
        show List.findSome? f xs = f a
        have hax : a ∈ xs := by
          rcases List.mem_cons.mp ha with h | h
          · exact absurd h.symm hxa
          · exact h
        exact ih hax (fun b hb => hu b (List.mem_cons_of_mem _ hb))

theorem findSome?_mem_of_eq_some {α β : Type} {l : List α} {f : α → Option β} {b : β}
    (h : l.findSome? f = some b) : ∃ a ∈ l, f a = some b := by
  induction l with
  | nil => simp [List.findSome?] at h
  | cons x xs ih =>
      rw [List.findSome?_cons] at h
      cases hfx : f x with
      | some v =>
          rw [hfx] at h
          simp only at h
          exact ⟨x, List.mem_cons_self _ _, by rw [hfx, h]⟩
      | none =>
          rw [hfx] at h
          simp only at h
          obtain ⟨a, ha, hfa⟩ := ih h
          exact ⟨a, List.mem_cons_of_mem _ ha, hfa⟩

/-! ### Congruence of the strategies in the frame rows -/

def rowMeta (r : Row) : Nat × Nat × Nat × Nat := (r.station, r.date, r.month, r.hour)

/-- Two frames with identical station/date/month/hour structure. -/
def MetaEq (base cur : List Row) : Prop :=
  ∀ i, (cur.get? i).map rowMeta = (base.get? i).map rowMeta

theorem rowMeta_setVar (r : Row) (v : Var) (x : Option ℚ) : rowMeta (r.setVar v x) = rowMeta r := by
  cases v <;> rfl

theorem MetaEq.length_eq {base cur : List Row} (h : MetaEq base cur) :
    cur.length = base.length := by
  have hn : ∀ i, cur.get? i = none ↔ base.get? i = none := by
    intro i
    have := h i
    constructor
    · intro hh
      rw [hh] at this
      simpa [Option.map_eq_none'] using this.symm
    · intro hh
      rw [hh] at this
      simpa [Option.map_eq_none'] using this
  have h1 : base.length ≤ cur.length := by
    by_contra hc
    have := (hn cur.length).mp (List.get?_eq_none.mpr (le_refl _))
    rw [List.get?_eq_none] at this
    omega
  have h2 : cur.length ≤ base.length := by
    by_contra hc
    have := (hn base.length).mpr (List.get?_eq_none.mpr (le_refl _))
    rw [List.get?_eq_none] at this
    omega
  omega

theorem bind_congr_of_map_eq {α β : Type} {o o' : Option α} {f : α → Option β}
    (h : o'.map f = o.map f) : o'.bind f = o.bind f := by
  cases o <;> cases o' <;> simp_all

theorem maskOf_get? (rows : List Row) (v : Var) (i : Nat) :
    (maskOf rows v).get? i = (rows.get? i).map fun r => (r.getVar v).isNone := by
  simp [maskOf, List.get?_map]

theorem maskOf_length (rows : List Row) (v : Var) : (maskOf rows v).length = rows.length := by
  simp [maskOf]

theorem bStation_congr {base cur : List Row} (h : MetaEq base cur) :
    bStation cur = bStation base := by
  have h0 := h 0
  unfold bStation
  rw [← List.get?_zero, ← List.get?_zero]
  cases h1 : base.get? 0 <;> cases h2 : cur.get? 0 <;> rw [h1, h2] at h0 <;>
    simp_all [rowMeta]

theorem beforeValAt_congr (v : Var) {base cur : List Row} (s : Nat)
    (hb : 0 < s → (cur.get? (s - 1)).map (fun r => r.getVar v) =
      (base.get? (s - 1)).map (fun r => r.getVar v)) :
    beforeValAt cur v s = beforeValAt base v s := by
  unfold beforeValAt
  by_cases hs : 0 < s
  · rw [if_pos hs, if_pos hs]
    exact bind_congr_of_map_eq (hb hs)
  · rw [if_neg hs, if_neg hs]

theorem afterValAt_congr (v : Var) {base cur : List Row} (s l : Nat)
    (hlen : cur.length = base.length)
    (ha : s + l < base.length → (cur.get? (s + l)).map (fun r => r.getVar v) =
      (base.get? (s + l)).map (fun r => r.getVar v)) :
    afterValAt cur v s l = afterValAt base v s l := by
  unfold afterValAt
  rw [hlen]
  by_cases hs : s + l < base.length
  · rw [if_pos hs, if_pos hs]
    exact bind_congr_of_map_eq (ha hs)
  · rw [if_neg hs, if_neg hs]

theorem profileLookup_congr (profiles : Profiles) (v : Var) (st : Nat) {o o' : Option Row}
    (h : o'.map rowMeta = o.map rowMeta) :
    o'.bind (fun r => profiles v (st, r.month, r.hour)) =
      o.bind (fun r => profiles v (st, r.month, r.hour)) := by
  cases o <;> cases o' <;> simp_all [rowMeta, Prod.ext_iff]

theorem bProfileVals_congr (profiles : Profiles) (v : Var) {base cur : List Row}
    (hm : MetaEq base cur) (s l : Nat) :
    bProfileVals cur s l v profiles = bProfileVals base s l v profiles := by
  unfold bProfileVals
  rw [bStation_congr hm]
  refine List.map_congr_left ?_
  intro i _
  exact profileLookup_congr profiles v (bStation base) (hm (s + i))

theorem bBeforeProfile_congr (profiles : Profiles) (v : Var) {base cur : List Row}
    (hm : MetaEq base cur) (s : Nat)
    (hb : 0 < s → (cur.get? (s - 1)).map (fun r => r.getVar v) =
      (base.get? (s - 1)).map (fun r => r.getVar v)) :
    bBeforeProfile cur s v profiles = bBeforeProfile base s v profiles := by
  unfold bBeforeProfile
  rw [beforeValAt_congr v s hb, bStation_congr hm]
  cases beforeValAt base v s with
  | none => rfl
  | some b0 => exact profileLookup_congr profiles v (bStation base) (hm (s - 1))

theorem bAfterProfile_congr (profiles : Profiles) (v : Var) {base cur : List Row}
    (hm : MetaEq base cur) (s l : Nat)
    (ha : s + l < base.length → (cur.get? (s + l)).map (fun r => r.getVar v) =
      (base.get? (s + l)).map (fun r => r.getVar v)) :
    bAfterProfile cur s l v profiles = bAfterProfile base s l v profiles := by
  unfold bAfterProfile
  rw [afterValAt_congr v s l hm.length_eq ha, bStation_congr hm]
  cases afterValAt base v s l with
  | none => rfl
  | some a0 => exact profileLookup_congr profiles v (bStation base) (hm (s + l))

theorem bBeforeOffset_congr (profiles : Profiles) (v : Var) {base cur : List Row}
    (hm : MetaEq base cur) (s : Nat)
    (hb : 0 < s → (cur.get? (s - 1)).map (fun r => r.getVar v) =
      (base.get? (s - 1)).map (fun r => r.getVar v)) :
    bBeforeOffset cur s v profiles = bBeforeOffset base s v profiles := by
  unfold bBeforeOffset
  rw [beforeValAt_congr v s hb, bBeforeProfile_congr profiles v hm s hb]

theorem bAfterOffset_congr (profiles : Profiles) (v : Var) {base cur : List Row}
    (hm : MetaEq base cur) (s l : Nat)
    (ha : s + l < base.length → (cur.get? (s + l)).map (fun r => r.getVar v) =
      (base.get? (s + l)).map (fun r => r.getVar v)) :
    bAfterOffset cur s l v profiles = bAfterOffset base s l v profiles := by
  unfold bAfterOffset
  rw [afterValAt_congr v s l hm.length_eq ha, bAfterProfile_congr profiles v hm s l ha]

theorem bOffsets_congr (profiles : Profiles) (v : Var) {base cur : List Row}
    (hm : MetaEq base cur) (s l : Nat)
    (hb : 0 < s → (cur.get? (s - 1)).map (fun r => r.getVar v) =
      (base.get? (s - 1)).map (fun r => r.getVar v))
    (ha : s + l < base.length → (cur.get? (s + l)).map (fun r => r.getVar v) =
      (base.get? (s + l)).map (fun r => r.getVar v)) (i : Nat) :
    bOffsets cur s l v profiles i = bOffsets base s l v profiles i := by
  unfold bOffsets
  rw [bBeforeOffset_congr profiles v hm s hb, bAfterOffset_congr profiles v hm s l ha]

theorem impute_gap_strategy_b_congr (profiles : Profiles) (v : Var) {base cur : List Row}
    (hm : MetaEq base cur) (s l : Nat)
    (hb : 0 < s → (cur.get? (s - 1)).map (fun r => r.getVar v) =
      (base.get? (s - 1)).map (fun r => r.getVar v))
    (ha : s + l < base.length → (cur.get? (s + l)).map (fun r => r.getVar v) =
      (base.get? (s + l)).map (fun r => r.getVar v)) :
    impute_gap_strategy_b cur s l v profiles = impute_gap_strategy_b base s l v profiles := by
  unfold impute_gap_strategy_b strategy_b_raw
  rw [bProfileVals_congr profiles v hm s l]
  by_cases hall : (bProfileVals base s l v profiles).all Option.isNone
  · rw [if_pos hall, if_pos hall]
  · rw [if_neg hall, if_neg hall]
    refine congrArg _ (List.map_congr_left ?_)
    intro i _
    rw [bOffsets_congr profiles v hm s l hb ha]

theorem strategyA_congr (v : Var) {base cur : List Row} (s l : Nat)
    (hlen : cur.length = base.length)
    (hb : 0 < s → (cur.get? (s - 1)).map (fun r => r.getVar v) =
      (base.get? (s - 1)).map (fun r => r.getVar v))
    (ha : s + l < base.length → (cur.get? (s + l)).map (fun r => r.getVar v) =
      (base.get? (s + l)).map (fun r => r.getVar v)) :
    strategyA cur v s l = strategyA base v s l := by
  unfold strategyA
  rw [beforeValAt_congr v s hb, afterValAt_congr v s l hlen ha]

theorem gapFill_congr (profiles : Profiles) (v : Var) {base cur : List Row}
    (hm : MetaEq base cur) (s l : Nat)
    (hb : 0 < s → (cur.get? (s - 1)).map (fun r => r.getVar v) =
      (base.get? (s - 1)).map (fun r => r.getVar v))
    (ha : s + l < base.length → (cur.get? (s + l)).map (fun r => r.getVar v) =
      (base.get? (s + l)).map (fun r => r.getVar v)) :
    gapFill cur profiles v s l = gapFill base profiles v s l := by
  unfold gapFill
  rw [strategyA_congr v s l hm.length_eq hb ha, impute_gap_strategy_b_congr profiles v hm s l hb ha]

/-! ### Lengths of the fill vectors -/

theorem linspace_length (a b : ℚ) (n : Nat) : (linspace a b n).length = n := by
  unfold linspace
  rw [List.length_map, List.length_range]

theorem strategyA_length {rows : List Row} {v : Var} {s l : Nat} {vs : List ℚ}
    (h : strategyA rows v s l = some vs) : vs.length = l := by
  unfold strategyA at h
  rcases hb : beforeValAt rows v s with _ | b <;> rcases ha : afterValAt rows v s l with _ | a <;>
      rw [hb, ha] at h
  · simp at h
  · simp only [Option.some.injEq] at h
    rw [← h]
    simp
  · simp only [Option.some.injEq] at h
    rw [← h]
    simp
  · simp only [Option.some.injEq] at h
    rw [← h]
    rw [List.length_take, List.length_drop, linspace_length]
    omega

theorem strategy_b_raw_length (rows : List Row) (s l : Nat) (v : Var) (profiles : Profiles) :
    (strategy_b_raw rows s l v profiles).length = l := by
  unfold strategy_b_raw
  by_cases hall : (bProfileVals rows s l v profiles).all Option.isNone <;> simp [hall]

theorem impute_gap_strategy_b_length (rows : List Row) (s l : Nat) (v : Var)
    (profiles : Profiles) : (impute_gap_strategy_b rows s l v profiles).length = l := by
  simp [impute_gap_strategy_b, strategy_b_raw_length]

theorem gapFill_length {base : List Row} {profiles : Profiles} {v : Var} {s l : Nat}
    {vals : List (Option ℚ)} {st : Strat} (h : gapFill base profiles v s l = some (vals, st)) :
    vals.length = l := by
  unfold gapFill at h
  by_cases h24 : 24 < l
  · rw [if_pos h24] at h
    simp at h
  · rw [if_neg h24] at h
    by_cases h2 : l ≤ 2
    · rw [if_pos h2] at h
      rcases ha : strategyA base v s l with _ | vs <;> rw [ha] at h <;> simp_all
      rw [← h.1]
      simp [strategyA_length ha]
    · rw [if_neg h2] at h
      simp only at h
      by_cases hall : (impute_gap_strategy_b base s l v profiles).all Option.isNone
      · rw [if_pos hall] at h
        simp at h
      · rw [if_neg hall] at h
        simp only [Option.some.injEq, Prod.mk.injEq] at h
        rw [← h.1]
        exact impute_gap_strategy_b_length base s l v profiles

/-! ### The per-gap loop computes gapFill of the pass-start frame -/

theorem MetaEq_setCells {base cur : List Row} (hm : MetaEq base cur) (var : Var) (s : Nat)
    (vals : List (Option ℚ)) : MetaEq base (setCells cur var s vals) := by
  intro i
  rw [get?_setCells]
  split
  · have h := hm i
    cases hc : cur.get? i with
    | none => rw [hc] at h; simpa using h
    | some r => rw [hc] at h; simpa [rowMeta_setVar] using h
  · exact hm i

theorem gapStep_cases (profiles : Profiles) (var : Var) (base cur : List Row)
    (curM : List (List (Var × Strat))) (g : Nat × Nat)
    (hm : MetaEq base cur)
    (hmaskF : ∀ i, (maskOf base var).get? i = some false → cur.get? i = base.get? i)
    (hgL : g.1 = 0 ∨ (maskOf base var).get? (g.1 - 1) = some false)
    (hgR : g.1 + g.2 = (maskOf base var).length ∨
      (maskOf base var).get? (g.1 + g.2) = some false) :
    (gapFill base profiles var g.1 g.2 = none ∧
      gapStep profiles var (cur, curM) g = (cur, curM)) ∨
    (∃ vals strat, gapFill base profiles var g.1 g.2 = some (vals, strat) ∧
      vals.length = g.2 ∧
      gapStep profiles var (cur, curM) g =
        (setCells cur var g.1 vals, addTags curM g.1 g.2 (var, strat))) := by
  have hb : 0 < g.1 → (cur.get? (g.1 - 1)).map (fun r => r.getVar var) =
      (base.get? (g.1 - 1)).map (fun r => r.getVar var) := by
    intro hs
    rcases hgL with h | h
    · omega
    · rw [hmaskF _ h]
  have ha : g.1 + g.2 < base.length → (cur.get? (g.1 + g.2)).map (fun r => r.getVar var) =
      (base.get? (g.1 + g.2)).map (fun r => r.getVar var) := by
    intro hs
    rcases hgR with h | h
    · rw [maskOf_length] at h
      omega
    · rw [hmaskF _ h]
  by_cases h24 : 24 < g.2
  · refine Or.inl ⟨?_, ?_⟩
    · unfold gapFill
      rw [if_pos h24]
    · unfold gapStep
      rw [if_pos h24]
  · by_cases h2 : g.2 ≤ 2
    · have hAeq : strategyA cur var g.1 g.2 = strategyA base var g.1 g.2 :=
        strategyA_congr var g.1 g.2 hm.length_eq hb ha
      cases hA : strategyA base var g.1 g.2 with
      | none =>
          refine Or.inl ⟨?_, ?_⟩
          · unfold gapFill
            rw [if_neg h24, if_pos h2, hA]
            rfl
          · unfold gapStep
            rw [if_neg h24]
            simp only [if_pos h2]
            show (match strategyA cur var g.1 g.2 with
              | none => (cur, curM)
              | some interp =>
                  (setCells cur var g.1 ((interp.map (clipVar var)).map some),
                   addTags curM g.1 g.2 (var, Strat.A))) = (cur, curM)
            rw [hAeq, hA]
      | some interp =>
          refine Or.inr ⟨(interp.map (clipVar var)).map some, Strat.A, ?_, ?_, ?_⟩
          · unfold gapFill
            rw [if_neg h24, if_pos h2, hA]
            rfl
          · simp [strategyA_length hA]
          · unfold gapStep
            rw [if_neg h24]
            simp only [if_pos h2]
            show (match strategyA cur var g.1 g.2 with
              | none => (cur, curM)
              | some interp =>
                  (setCells cur var g.1 ((interp.map (clipVar var)).map some),
                   addTags curM g.1 g.2 (var, Strat.A))) = _
            rw [hAeq, hA]
    · have hBeq : impute_gap_strategy_b cur g.1 g.2 var profiles =
          impute_gap_strategy_b base g.1 g.2 var profiles :=
        impute_gap_strategy_b_congr profiles var hm g.1 g.2 hb ha
      by_cases hall : (impute_gap_strategy_b base g.1 g.2 var profiles).all Option.isNone
      · refine Or.inl ⟨?_, ?_⟩
        · unfold gapFill
          rw [if_neg h24, if_neg h2]
          simp only
          rw [if_pos hall]
        · unfold gapStep
          rw [if_neg h24]
          simp only [if_neg h2]
          show (if (impute_gap_strategy_b cur g.1 g.2 var profiles).all Option.isNone then
              (cur, curM)
            else
              (setCells cur var g.1 (impute_gap_strategy_b cur g.1 g.2 var profiles),
               addTags curM g.1 g.2 (var, Strat.B))) = (cur, curM)
          rw [hBeq, if_pos hall]
      · refine Or.inr ⟨impute_gap_strategy_b base g.1 g.2 var profiles, Strat.B, ?_, ?_, ?_⟩
        · unfold gapFill
          rw [if_neg h24, if_neg h2]
          simp only
          rw [if_neg hall]
        · exact impute_gap_strategy_b_length base g.1 g.2 var profiles
        · unfold gapStep
          rw [if_neg h24]
          simp only [if_neg h2]
          show (if (impute_gap_strategy_b cur g.1 g.2 var profiles).all Option.isNone then
              (cur, curM)
            else
              (setCells cur var g.1 (impute_gap_strategy_b cur g.1 g.2 var profiles),
               addTags curM g.1 g.2 (var, Strat.B))) = _
          rw [hBeq, if_neg hall]

theorem foldl_gapStep_spec (base : List Row) (profiles : Profiles) (var : Var) :
    ∀ (gl : List (Nat × Nat)) (cur : List Row) (curM : List (List (Var × Strat))),
      (∀ g ∈ gl, GapOK (maskOf base var) g) →
      gl.Pairwise (fun g g' => g.1 + g.2 ≤ g'.1) →
      MetaEq base cur →
      (∀ i, (maskOf base var).get? i = some false → cur.get? i = base.get? i) →
      (∀ i,
          (gl.foldl (gapStep profiles var) (cur, curM)).1.get? i =
            match tagValFrom base profiles var gl i with
            | some p => (cur.get? i).map fun r => r.setVar var p.1
            | none => cur.get? i) ∧
      (∀ i,
          (gl.foldl (gapStep profiles var) (cur, curM)).2.get? i =
            match tagValFrom base profiles var gl i with
            | some p => (curM.get? i).map fun mm => mm ++ [(var, p.2)]
            | none => curM.get? i) := by
  intro gl
  induction gl with
  | nil =>
      intro cur curM _ _ _ _
      constructor <;> intro i <;> simp [tagValFrom]
  | cons g gl' ih =>
      intro cur curM hgaps hpw hm hmaskF
      obtain ⟨hg1, hg2, hgT, hgL, hgR⟩ := hgaps g (List.mem_cons_self _ _)
      have hord : ∀ g' ∈ gl', g.1 + g.2 ≤ g'.1 := fun g' hg' => (List.pairwise_cons.mp hpw).1 g' hg'
      have hpw' : gl'.Pairwise (fun g g' => g.1 + g.2 ≤ g'.1) := (List.pairwise_cons.mp hpw).2
      have hgaps' : ∀ g' ∈ gl', GapOK (maskOf base var) g' :=
        fun g' hg' => hgaps g' (List.mem_cons_of_mem _ hg')
      rcases gapStep_cases profiles var base cur curM g hm hmaskF hgL hgR with
        ⟨hfn, hst⟩ | ⟨vals, strat, hfs, hvlen, hst⟩
      · -- the gap is skipped: state unchanged, no tag, no value
        have hT : ∀ i, tagValFrom base profiles var (g :: gl') i =
            tagValFrom base profiles var gl' i := by
          intro i
          unfold tagValFrom
          rw [List.findSome?_cons]
          by_cases hcov : g.1 ≤ i ∧ i < g.1 + g.2
          · rw [if_pos hcov, hfn]
            rfl
          · rw [if_neg hcov]
        obtain ⟨IH1, IH2⟩ := ih cur curM hgaps' hpw' hm hmaskF
        constructor <;> intro i
        · rw [List.foldl_cons, hst, hT i]
          exact IH1 i
        · rw [List.foldl_cons, hst, hT i]
          exact IH2 i
      · -- the gap is processed: values written on [g.1, g.1+g.2), tag appended
        have hm2 : MetaEq base (setCells cur var g.1 vals) := MetaEq_setCells hm var g.1 vals
        have hmaskF2 : ∀ i, (maskOf base var).get? i = some false →
            (setCells cur var g.1 vals).get? i = base.get? i := by
          intro i hfalse
          rw [get?_setCells]
          split
          next hcond =>
            exfalso
            rw [hvlen] at hcond
            have := hgT i hcond.1 hcond.2
            rw [hfalse] at this
            simp at this
          next hcond => exact hmaskF i hfalse
        obtain ⟨IH1, IH2⟩ := ih (setCells cur var g.1 vals) (addTags curM g.1 g.2 (var, strat))
          hgaps' hpw' hm2 hmaskF2
        have hTcov : ∀ i, g.1 ≤ i → i < g.1 + g.2 →
            tagValFrom base profiles var (g :: gl') i =
              some (vals.getD (i - g.1) none, strat) ∧
            tagValFrom base profiles var gl' i = none := by
          intro i hi1 hi2
          constructor
          · unfold tagValFrom
            rw [List.findSome?_cons, if_pos ⟨hi1, hi2⟩, hfs]
            rfl
          · refine List.findSome?_eq_none.mpr ?_
            intro g' hg'
            have hno : ¬ (g'.1 ≤ i ∧ i < g'.1 + g'.2) := by
              have := hord g' hg'
              omega
            rw [if_neg hno]
        have hTnocov : ∀ i, ¬ (g.1 ≤ i ∧ i < g.1 + g.2) →
            tagValFrom base profiles var (g :: gl') i = tagValFrom base profiles var gl' i := by
          intro i hcov
          unfold tagValFrom
          rw [List.findSome?_cons, if_neg hcov]
        constructor <;> intro i
        · rw [List.foldl_cons, hst]
          by_cases hcov : g.1 ≤ i ∧ i < g.1 + g.2
          · obtain ⟨hT1, hT2⟩ := hTcov i hcov.1 hcov.2
            simp only [hT1]
            rw [IH1 i]
            simp only [hT2]
            rw [get?_setCells, if_pos (by rw [hvlen]; exact hcov)]
          · rw [hTnocov i hcov]
            have hout : (setCells cur var g.1 vals).get? i = cur.get? i := by
              rw [get?_setCells, if_neg (by rw [hvlen]; exact hcov)]
            rw [IH1 i]
            cases hT2 : tagValFrom base profiles var gl' i with
            | some p =>
                simp only
                rw [hout]
            | none => exact hout
        · rw [List.foldl_cons, hst]
          by_cases hcov : g.1 ≤ i ∧ i < g.1 + g.2
          · obtain ⟨hT1, hT2⟩ := hTcov i hcov.1 hcov.2
            simp only [hT1]
            rw [IH2 i]
            simp only [hT2]
            rw [get?_addTags, if_pos hcov]
          · rw [hTnocov i hcov]
            have hout : (addTags curM g.1 g.2 (var, strat)).get? i = curM.get? i := by
              rw [get?_addTags, if_neg hcov]
            rw [IH2 i]
            cases hT2 : tagValFrom base profiles var gl' i with
            | some p =>
                simp only
                rw [hout]
            | none => exact hout

/-! ### Per-pass and full-station characterization -/

theorem processVar_spec (profiles : Profiles) (base : List Row)
    (curM : List (List (Var × Strat))) (var : Var) :
    (∀ i, (processVar profiles (base, curM) var).1.get? i =
        match tagVal base profiles var i with
        | some p => (base.get? i).map fun r => r.setVar var p.1
        | none => base.get? i) ∧
    (∀ i, (processVar profiles (base, curM) var).2.get? i =
        match tagVal base profiles var i with
        | some p => (curM.get? i).map fun mm => mm ++ [(var, p.2)]
        | none => curM.get? i) := by
  unfold processVar tagVal
  exact foldl_gapStep_spec base profiles var (find_gaps (maskOf base var)) base curM
    (fun g hg => find_gaps_spec _ g hg) (find_gaps_pairwise _)
    (fun i => rfl) (fun i _ => rfl)

theorem processVar_meta (profiles : Profiles) (base : List Row)
    (curM : List (List (Var × Strat))) (var : Var) :
    MetaEq base (processVar profiles (base, curM) var).1 := by
  intro i
  rw [(processVar_spec profiles base curM var).1 i]
  cases tagVal base profiles var i with
  | some p => cases base.get? i <;> simp [rowMeta_setVar]
  | none => rfl

theorem processVar_colEq (profiles : Profiles) (base : List Row)
    (curM : List (List (Var × Strat))) (var w : Var) (hw : w ≠ var) :
    ∀ i, ((processVar profiles (base, curM) var).1.get? i).map (fun r => r.getVar w) =
      (base.get? i).map (fun r => r.getVar w) := by
  intro i
  rw [(processVar_spec profiles base curM var).1 i]
  cases tagVal base profiles var i with
  | some p => cases base.get? i <;> simp [Row.getVar_setVar_ne _ _ hw]
  | none => rfl

theorem processVar_colSelf (profiles : Profiles) (base : List Row)
    (curM : List (List (Var × Strat))) (var : Var) :
    ∀ i, ((processVar profiles (base, curM) var).1.get? i).map (fun r => r.getVar var) =
      match tagVal base profiles var i with
      | some p => (base.get? i).map (fun _ => p.1)
      | none => (base.get? i).map (fun r => r.getVar var) := by
  intro i
  rw [(processVar_spec profiles base curM var).1 i]
  cases tagVal base profiles var i with
  | some p => cases base.get? i <;> simp [Row.getVar_setVar_self]
  | none => rfl

theorem MetaEq_trans {a b c : List Row} (h1 : MetaEq a b) (h2 : MetaEq b c) : MetaEq a c :=
  fun i => (h2 i).trans (h1 i)

theorem map_const_congr {o o' : Option Row} (h : o'.map rowMeta = o.map rowMeta)
    (c : Option ℚ) : o'.map (fun _ => c) = o.map (fun _ => c) := by
  cases o <;> cases o' <;> simp_all

theorem tagVal_congr (profiles : Profiles) (v : Var) {base cur : List Row}
    (hm : MetaEq base cur)
    (hcol : ∀ i, (cur.get? i).map (fun r => r.getVar v) =
      (base.get? i).map (fun r => r.getVar v)) :
    ∀ i, tagVal cur profiles v i = tagVal base profiles v i := by
  have hmask : maskOf cur v = maskOf base v := by
    refine List.ext ?_
    intro i
    rw [maskOf_get?, maskOf_get?]
    have := hcol i
    cases h1 : base.get? i <;> cases h2 : cur.get? i <;> rw [h1, h2] at this <;> simp_all
  intro i
  unfold tagVal tagValFrom
  rw [hmask]
  refine congrArg (fun f => List.findSome? f (find_gaps (maskOf base v))) (funext fun g => ?_)
  by_cases hcov : g.1 ≤ i ∧ i < g.1 + g.2
  · rw [if_pos hcov, if_pos hcov,
      gapFill_congr profiles v hm g.1 g.2 (fun _ => hcol (g.1 - 1)) (fun _ => hcol (g.1 + g.2))]
  · rw [if_neg hcov, if_neg hcov]

theorem get?_replicate {α : Type} (a : α) :
    ∀ (n i : Nat), (List.replicate n a).get? i = if i < n then some a else none := by
  intro n
  induction n with
  | zero => intro i; simp
  | succ k ih =>
      intro i
      cases i with
      | zero => simp [List.replicate]
      | succ t =>
          rw [List.replicate, List.get?_cons_succ, ih t]
          by_cases h : t < k
          · rw [if_pos h, if_pos (by omega)]
          · rw [if_neg h, if_neg (by omega)]

/-- The three passes of impute_station, as explicit stages. -/
def stage1 (profiles : Profiles) (rows : List Row) : StState :=
  processVar profiles (rows, List.replicate rows.length []) Var.temperature

def stage2 (profiles : Profiles) (rows : List Row) : StState :=
  processVar profiles (stage1 profiles rows) Var.rh

def stage3 (profiles : Profiles) (rows : List Row) : StState :=
  processVar profiles (stage2 profiles rows) Var.wind_speed

theorem impute_station_eq_stage3 (profiles : Profiles) (rows : List Row) :
    impute_station profiles rows = stage3 profiles rows := rfl

theorem stage1_def (profiles : Profiles) (rows : List Row) :
    stage1 profiles rows = processVar profiles (rows, List.replicate rows.length [])
      Var.temperature := rfl

theorem stage2_pair (profiles : Profiles) (rows : List Row) :
    stage2 profiles rows =
      processVar profiles ((stage1 profiles rows).1, (stage1 profiles rows).2) Var.rh := rfl

theorem stage3_pair (profiles : Profiles) (rows : List Row) :
    stage3 profiles rows =
      processVar profiles ((stage2 profiles rows).1, (stage2 profiles rows).2)
        Var.wind_speed := rfl

theorem stage1_meta (profiles : Profiles) (rows : List Row) :
    MetaEq rows (stage1 profiles rows).1 :=
  processVar_meta profiles rows _ Var.temperature

theorem stage2_meta (profiles : Profiles) (rows : List Row) :
    MetaEq rows (stage2 profiles rows).1 :=
  MetaEq_trans (stage1_meta profiles rows)
    (processVar_meta profiles (stage1 profiles rows).1 (stage1 profiles rows).2 Var.rh)

theorem stage3_meta (profiles : Profiles) (rows : List Row) :
    MetaEq rows (stage3 profiles rows).1 :=
  MetaEq_trans (stage2_meta profiles rows)
    (processVar_meta profiles (stage2 profiles rows).1 (stage2 profiles rows).2 Var.wind_speed)

theorem impute_station_meta (profiles : Profiles) (rows : List Row) :
    MetaEq rows (impute_station profiles rows).1 :=
  stage3_meta profiles rows

theorem stage1_col_rh (profiles : Profiles) (rows : List Row) :
    ∀ i, ((stage1 profiles rows).1.get? i).map (fun r => r.getVar Var.rh) =
      (rows.get? i).map (fun r => r.getVar Var.rh) :=
  processVar_colEq profiles rows _ Var.temperature Var.rh (by decide)

theorem stage1_col_ws (profiles : Profiles) (rows : List Row) :
    ∀ i, ((stage1 profiles rows).1.get? i).map (fun r => r.getVar Var.wind_speed) =
      (rows.get? i).map (fun r => r.getVar Var.wind_speed) :=
  processVar_colEq profiles rows _ Var.temperature Var.wind_speed (by decide)

theorem stage2_col_ws (profiles : Profiles) (rows : List Row) :
    ∀ i, ((stage2 profiles rows).1.get? i).map (fun r => r.getVar Var.wind_speed) =
      (rows.get? i).map (fun r => r.getVar Var.wind_speed) := by
  intro i
  have h2 := processVar_colEq profiles (stage1 profiles rows).1 (stage1 profiles rows).2
    Var.rh Var.wind_speed (by decide) i
  exact h2.trans (stage1_col_ws profiles rows i)

theorem stage2_col_t (profiles : Profiles) (rows : List Row) :
    ∀ i, ((stage2 profiles rows).1.get? i).map (fun r => r.getVar Var.temperature) =
      ((stage1 profiles rows).1.get? i).map (fun r => r.getVar Var.temperature) :=
  processVar_colEq profiles (stage1 profiles rows).1 (stage1 profiles rows).2
    Var.rh Var.temperature (by decide)

theorem stage3_col_t (profiles : Profiles) (rows : List Row) :
    ∀ i, ((stage3 profiles rows).1.get? i).map (fun r => r.getVar Var.temperature) =
      ((stage1 profiles rows).1.get? i).map (fun r => r.getVar Var.temperature) := by
  intro i
  have h3 := processVar_colEq profiles (stage2 profiles rows).1 (stage2 profiles rows).2
    Var.wind_speed Var.temperature (by decide) i
  exact h3.trans (stage2_col_t profiles rows i)

theorem stage3_col_rh (profiles : Profiles) (rows : List Row) :
    ∀ i, ((stage3 profiles rows).1.get? i).map (fun r => r.getVar Var.rh) =
      ((stage2 profiles rows).1.get? i).map (fun r => r.getVar Var.rh) :=
  processVar_colEq profiles (stage2 profiles rows).1 (stage2 profiles rows).2
    Var.wind_speed Var.rh (by decide)

theorem stage1_tagVal_rh (profiles : Profiles) (rows : List Row) :
    ∀ i, tagVal (stage1 profiles rows).1 profiles Var.rh i = tagVal rows profiles Var.rh i :=
  tagVal_congr profiles Var.rh (stage1_meta profiles rows) (stage1_col_rh profiles rows)

theorem stage2_tagVal_ws (profiles : Profiles) (rows : List Row) :
    ∀ i, tagVal (stage2 profiles rows).1 profiles Var.wind_speed i =
      tagVal rows profiles Var.wind_speed i :=
  tagVal_congr profiles Var.wind_speed (stage2_meta profiles rows) (stage2_col_ws profiles rows)

/-- Final value of each variable's column after impute_station, in terms of
the gap specification tagVal computed on the input frame. -/
theorem master_col (profiles : Profiles) (rows : List Row) (v : Var) :
    ∀ i, ((impute_station profiles rows).1.get? i).map (fun r => r.getVar v) =
      match tagVal rows profiles v i with
      | some p => (rows.get? i).map (fun _ => p.1)
      | none => (rows.get? i).map (fun r => r.getVar v) := by
  intro i
  rw [impute_station_eq_stage3]
  cases v with
  | temperature =>
      rw [stage3_col_t profiles rows i]
      exact processVar_colSelf profiles rows _ Var.temperature i
  | rh =>
      rw [stage3_col_rh profiles rows i]
      have h := processVar_colSelf profiles (stage1 profiles rows).1 (stage1 profiles rows).2
        Var.rh i
      rw [stage1_tagVal_rh profiles rows i] at h
      rw [stage2_pair, h]
      cases tagVal rows profiles Var.rh i with
      | some p => exact map_const_congr (stage1_meta profiles rows i) p.1
      | none => exact stage1_col_rh profiles rows i
  | wind_speed =>
      have h := processVar_colSelf profiles (stage2 profiles rows).1 (stage2 profiles rows).2
        Var.wind_speed i
      rw [stage2_tagVal_ws profiles rows i] at h
      rw [stage3_pair, h]
      cases tagVal rows profiles Var.wind_speed i with
      | some p => exact map_const_congr (stage2_meta profiles rows i) p.1
      | none => exact stage2_col_ws profiles rows i

/-- Final method record of each row after impute_station: exactly one tag,
in configuration order, for each variable whose covering gap was processed. -/
theorem master_tags (profiles : Profiles) (rows : List Row) :
    ∀ i, i < rows.length →
      (impute_station profiles rows).2.get? i = some (specTags rows profiles i) := by
  intro i hi
  rw [impute_station_eq_stage3]
  have h0 : (List.replicate rows.length ([] : List (Var × Strat))).get? i = some [] := by
    rw [get?_replicate, if_pos hi]
  have h1 := (processVar_spec profiles rows (List.replicate rows.length [])
    Var.temperature).2 i
  have h2 := (processVar_spec profiles (stage1 profiles rows).1 (stage1 profiles rows).2
    Var.rh).2 i
  have h3 := (processVar_spec profiles (stage2 profiles rows).1 (stage2 profiles rows).2
    Var.wind_speed).2 i
  rw [stage1_tagVal_rh profiles rows i] at h2
  rw [stage2_tagVal_ws profiles rows i] at h3
  rw [stage3_pair, h3, stage2_pair, h2, stage1_def, h1, h0]
  unfold specTags IMPUTE_VARS
  simp only [List.filterMap_cons, List.filterMap_nil]
  cases tagVal rows profiles Var.temperature i <;>
    cases tagVal rows profiles Var.rh i <;>
    cases tagVal rows profiles Var.wind_speed i <;>
    simp

/-! ### Corollaries of the master characterization -/

theorem tagVal_none_of_valid (profiles : Profiles) (rows : List Row) (v : Var) {i : Nat}
    {r : Row} (hr : rows.get? i = some r) (hv : (r.getVar v).isSome) :
    tagVal rows profiles v i = none := by
  refine List.findSome?_eq_none.mpr ?_
  intro g hg
  have hOK := find_gaps_spec _ g hg
  by_cases hcov : g.1 ≤ i ∧ i < g.1 + g.2
  · exfalso
    have := hOK.2.2.1 i hcov.1 hcov.2
    rw [maskOf_get?, hr] at this
    simp only [Option.map_some'] at this
    rw [Option.some_inj] at this
    rw [Option.isNone_iff_eq_none] at this
    rw [this] at hv
    simp at hv
  · rw [if_neg hcov]

theorem impute_station_valid_unchanged (profiles : Profiles) (rows : List Row) (v : Var)
    {i : Nat} {r : Row} {q : ℚ} (hr : rows.get? i = some r) (hq : r.getVar v = some q) :
    ((impute_station profiles rows).1.get? i).map (fun r => r.getVar v) = some (some q) := by
  rw [master_col profiles rows v i,
    tagVal_none_of_valid profiles rows v hr (by rw [hq]; rfl), hr]
  simp [hq]

theorem impute_station_length (profiles : Profiles) (rows : List Row) :
    (impute_station profiles rows).1.length = rows.length :=
  (impute_station_meta profiles rows).length_eq

theorem pairwise_cases {α : Type} {R : α → α → Prop} :
    ∀ {l : List α}, l.Pairwise R → ∀ {a b : α}, a ∈ l → b ∈ l → a = b ∨ R a b ∨ R b a := by
  intro l
  induction l with
  | nil => intro _ a b ha; simp at ha
  | cons x xs ih =>
      intro hp a b ha hb
      obtain ⟨hx, hp'⟩ := List.pairwise_cons.mp hp
      rcases List.mem_cons.mp ha with ha' | ha' <;> rcases List.mem_cons.mp hb with hb' | hb'
      · exact Or.inl (ha'.trans hb'.symm)
      · exact Or.inr (Or.inl (ha' ▸ hx b hb'))
      · exact Or.inr (Or.inr (hb' ▸ hx a ha'))
      · exact ih hp' ha' hb'

theorem tagVal_at_gap (profiles : Profiles) (rows : List Row) (v : Var) {s l i : Nat}
    (hg : (s, l) ∈ find_gaps (maskOf rows v)) (h1 : s ≤ i) (h2 : i < s + l) :
    tagVal rows profiles v i =
      (gapFill rows profiles v s l).map (fun p => (p.1.getD (i - s) none, p.2)) := by
  unfold tagVal tagValFrom
  rw [findSome?_eq_of_unique hg ?_]
  · rw [if_pos ⟨h1, h2⟩]
  · intro g' hg' hne
    obtain ⟨s', l'⟩ := g'
    by_cases hcov : s' ≤ i ∧ i < s' + l'
    · exfalso
      rcases pairwise_cases (find_gaps_pairwise (maskOf rows v)) hg' hg with he | hlt | hgt
      · exact hne he
      · simp only at hlt
        omega
      · simp only at hgt
        omega
    · rw [if_neg hcov]

theorem specTags_filter (profiles : Profiles) (rows : List Row) (v : Var) (i : Nat) :
    (specTags rows profiles i).filter (fun t => t.1 == v) =
      match tagVal rows profiles v i with
      | some p => [(v, p.2)]
      | none => [] := by
  unfold specTags IMPUTE_VARS
  simp only [List.filterMap_cons, List.filterMap_nil]
  cases v <;>
    cases tagVal rows profiles Var.temperature i <;>
    cases tagVal rows profiles Var.rh i <;>
    cases tagVal rows profiles Var.wind_speed i <;>
    simp

/-! ### Value-level lemmas for the strategies -/

theorem linspace_getD (a b : ℚ) {n i : Nat} (hi : i < n) :
    (linspace a b n).getD i 0 = a + (b - a) * (i : ℚ) / ((n : ℚ) - 1) := by
  unfold linspace
  rw [List.getD_eq_getElem?_getD, List.getElem?_map, List.getElem?_range hi]
  rfl

theorem bProfileVals_getD_none (rows : List Row) (s l : Nat) (var : Var) (profiles : Profiles)
    (hall : (bProfileVals rows s l var profiles).all Option.isNone) (i : Nat) :
    (bProfileVals rows s l var profiles).getD i none = none := by
  rw [List.getD_eq_getElem?_getD, ← List.get?_eq_getElem?]
  cases h : (bProfileVals rows s l var profiles).get? i with
  | none => rfl
  | some o =>
      have := List.all_eq_true.mp hall o (List.get?_mem h)
      simpa [Option.isNone_iff_eq_none] using this

theorem strategy_b_raw_get? (rows : List Row) (s l : Nat) (var : Var) (profiles : Profiles)
    {i : Nat} (hi : i < l) :
    (strategy_b_raw rows s l var profiles).get? i =
      some (((bProfileVals rows s l var profiles).getD i none).map
        fun p => p + bOffsets rows s l var profiles i) := by
  unfold strategy_b_raw
  by_cases hall : (bProfileVals rows s l var profiles).all Option.isNone
  · rw [if_pos hall, bProfileVals_getD_none rows s l var profiles hall i,
      get?_replicate, if_pos hi]
    rfl
  · rw [if_neg hall, List.get?_map, List.get?_range hi]
    rfl

theorem bProfileVals_length (rows : List Row) (s l : Nat) (var : Var) (profiles : Profiles) :
    (bProfileVals rows s l var profiles).length = l := by
  unfold bProfileVals
  rw [List.length_map, List.length_range]

theorem impute_gap_strategy_b_get? (rows : List Row) (s l : Nat) (var : Var)
    (profiles : Profiles) {i : Nat} (hi : i < l) :
    (impute_gap_strategy_b rows s l var profiles).get? i =
      some (((bProfileVals rows s l var profiles).getD i none).map
        fun p => clipVar var (p + bOffsets rows s l var profiles i)) := by
  unfold impute_gap_strategy_b
  rw [List.get?_map, strategy_b_raw_get? rows s l var profiles hi]
  cases (bProfileVals rows s l var profiles).getD i none <;> rfl

theorem strategy_b_all_none_iff (rows : List Row) (s l : Nat) (var : Var)
    (profiles : Profiles) :
    (impute_gap_strategy_b rows s l var profiles).all Option.isNone ↔
      (bProfileVals rows s l var profiles).all Option.isNone := by
  constructor
  · intro h
    by_contra hall
    rw [List.all_eq_true] at hall
    push_neg at hall
    obtain ⟨o, ho, hno⟩ := hall
    obtain ⟨j, hj⟩ := List.mem_iff_get?.mp ho
    obtain ⟨q, hq⟩ : ∃ q, o = some q := by
      cases o with
      | none => simp at hno
      | some q => exact ⟨q, rfl⟩
    have hjl : j < l := by
      have := List.get?_eq_some.mp hj
      obtain ⟨hlt, _⟩ := this
      rwa [bProfileVals_length] at hlt
    have hgd : (bProfileVals rows s l var profiles).getD j none = some q := by
      rw [List.getD_eq_getElem?_getD, ← List.get?_eq_getElem?, hj, hq]
      rfl
    have hentry := impute_gap_strategy_b_get? rows s l var profiles hjl
    rw [hgd] at hentry
    have := List.all_eq_true.mp h _ (List.get?_mem hentry)
    simp at this
  · intro hall
    unfold impute_gap_strategy_b strategy_b_raw
    rw [if_pos hall]
    rw [List.all_eq_true]
    intro x hx
    rw [List.mem_map] at hx
    obtain ⟨o, ho, hox⟩ := hx
    rw [List.eq_of_mem_replicate ho] at hox
    rw [← hox]
    rfl

theorem clipVar_rh_bounds (x : ℚ) : 0 ≤ clipVar Var.rh x ∧ clipVar Var.rh x ≤ 100 := by
  unfold clipVar
  constructor
  · exact le_max_left 0 _
  · refine max_le (by norm_num) (min_le_right x 100)

theorem clipVar_ws_nonneg (x : ℚ) : 0 ≤ clipVar Var.wind_speed x := le_max_left 0 x

theorem gapFill_entry_clip {base : List Row} {profiles : Profiles} {v : Var} {s l : Nat}
    {vals : List (Option ℚ)} {st : Strat} {i : Nat} {q : ℚ}
    (h : gapFill base profiles v s l = some (vals, st)) (hq : vals.getD i none = some q) :
    ∃ x, q = clipVar v x := by
  unfold gapFill at h
  by_cases h24 : 24 < l
  · rw [if_pos h24] at h
    simp at h
  · rw [if_neg h24] at h
    by_cases h2 : l ≤ 2
    · rw [if_pos h2] at h
      rcases hA : strategyA base v s l with _ | vs <;> rw [hA] at h
      · simp at h
      · simp only [Option.map_some', Option.some.injEq, Prod.mk.injEq] at h
        rw [← h.1] at hq
        rw [List.getD_eq_getElem?_getD, ← List.get?_eq_getElem?] at hq
        cases hg : ((vs.map (clipVar v)).map some).get? i with
        | none => rw [hg] at hq; simp at hq
        | some o =>
            rw [hg] at hq
            rw [List.get?_map, List.get?_map] at hg
            cases hv : vs.get? i with
            | none => rw [hv] at hg; simp at hg
            | some x =>
                rw [hv] at hg
                simp only [Option.map_some', Option.some.injEq] at hg
                simp only [Option.getD_some] at hq
                rw [← hg] at hq
                rw [Option.some_inj] at hq
                exact ⟨x, hq.symm⟩
    · rw [if_neg h2] at h
      simp only at h
      by_cases hall : (impute_gap_strategy_b base s l v profiles).all Option.isNone
      · rw [if_pos hall] at h
        simp at h
      · rw [if_neg hall] at h
        simp only [Option.some.injEq, Prod.mk.injEq] at h
        rw [← h.1] at hq
        rw [List.getD_eq_getElem?_getD, ← List.get?_eq_getElem?] at hq
        by_cases hi : i < l
        · rw [impute_gap_strategy_b_get? base s l v profiles hi] at hq
          simp only [Option.getD_some] at hq
          cases hp : (bProfileVals base s l v profiles).getD i none with
          | none => rw [hp] at hq; simp at hq
          | some p =>
              rw [hp] at hq
              simp only [Option.map_some', Option.some.injEq] at hq
              exact ⟨p + bOffsets base s l v profiles i, hq.symm⟩
        · have : (impute_gap_strategy_b base s l v profiles).get? i = none := by
            rw [List.get?_eq_none, impute_gap_strategy_b_length]
            omega
          rw [this] at hq
          simp at hq

theorem tagVal_some_elim {base : List Row} {profiles : Profiles} {v : Var} {i : Nat}
    {p : Option ℚ × Strat} (h : tagVal base profiles v i = some p) :
    ∃ s l vals st, (s, l) ∈ find_gaps (maskOf base v) ∧ s ≤ i ∧ i < s + l ∧
      gapFill base profiles v s l = some (vals, st) ∧ p = (vals.getD (i - s) none, st) := by
  obtain ⟨g, hg, hfg⟩ := findSome?_mem_of_eq_some h
  by_cases hcov : g.1 ≤ i ∧ i < g.1 + g.2
  · rw [if_pos hcov] at hfg
    cases hfill : gapFill base profiles v g.1 g.2 with
    | none => rw [hfill] at hfg; simp at hfg
    | some pr =>
        rw [hfill] at hfg
        simp only [Option.map_some', Option.some.injEq] at hfg
        exact ⟨g.1, g.2, pr.1, pr.2, hg, hcov.1, hcov.2, hfill, hfg.symm⟩
  · rw [if_neg hcov] at hfg
    simp at hfg

theorem filled_value_clipped (profiles : Profiles) (rows : List Row) (v : Var) {i : Nat}
    {r : Row} {q : ℚ} (hr : rows.get? i = some r) (hmiss : r.getVar v = none)
    (hout : ((impute_station profiles rows).1.get? i).map (fun r => r.getVar v) =
      some (some q)) :
    ∃ x, q = clipVar v x := by
  rw [master_col profiles rows v i] at hout
  cases ht : tagVal rows profiles v i with
  | none =>
      rw [ht, hr] at hout
      simp [hmiss] at hout
  | some p =>
      rw [ht, hr] at hout
      simp only [Option.map_some', Option.some.injEq] at hout
      obtain ⟨s, l, vals, st, hg, h1, h2, hfill, hp⟩ := tagVal_some_elim ht
      rw [hp] at hout
      simp only at hout
      exact gapFill_entry_clip hfill hout

theorem strategyA_both (rows : List Row) (v : Var) (s l : Nat) {b a : ℚ}
    (hb : beforeValAt rows v s = some b) (ha : afterValAt rows v s l = some a) :
    strategyA rows v s l =
      some ((List.range l).map fun (i : Nat) =>
        b + (a - b) * ((i : ℚ) + 1) / ((l : ℚ) + 1)) := by
  unfold strategyA
  rw [hb, ha]
  simp only [Option.some.injEq]
  refine List.ext ?_
  intro i
  by_cases hi : i < l
  · rw [List.get?_take hi, List.get?_drop, List.get?_map, List.get?_range hi]
    unfold linspace
    rw [List.get?_map, List.get?_range (by omega)]
    simp only [Option.map_some', Option.some.injEq]
    push_cast
    ring
  · have h1 : (((linspace b a (l + 2)).drop 1).take l).get? i = none := by
      rw [List.get?_eq_none, List.length_take, List.length_drop, linspace_length]
      omega
    have h2 : ((List.range l).map fun (i : Nat) =>
        b + (a - b) * ((i : ℚ) + 1) / ((l : ℚ) + 1)).get? i = none := by
      rw [List.get?_eq_none, List.length_map, List.length_range]
      omega
    rw [h1, h2]

theorem strategyA_before_only (rows : List Row) (v : Var) (s l : Nat) {b : ℚ}
    (hb : beforeValAt rows v s = some b) (ha : afterValAt rows v s l = none) :
    strategyA rows v s l = some (List.replicate l b) := by
  unfold strategyA
  rw [hb, ha]

theorem strategyA_after_only (rows : List Row) (v : Var) (s l : Nat) {a : ℚ}
    (hb : beforeValAt rows v s = none) (ha : afterValAt rows v s l = some a) :
    strategyA rows v s l = some (List.replicate l a) := by
  unfold strategyA
  rw [hb, ha]

theorem strategyA_none (rows : List Row) (v : Var) (s l : Nat)
    (hb : beforeValAt rows v s = none) (ha : afterValAt rows v s l = none) :
    strategyA rows v s l = none := by
  unfold strategyA
  rw [hb, ha]

theorem gapStep_skip_A (profiles : Profiles) (var : Var) (st : StState) (g : Nat × Nat)
    (h24 : ¬ 24 < g.2) (h2 : g.2 ≤ 2) (hA : strategyA st.1 var g.1 g.2 = none) :
    gapStep profiles var st g = st := by
  unfold gapStep
  rw [if_neg h24]
  simp only [if_pos h2]
  rw [hA]

theorem gapStep_skip_B (profiles : Profiles) (var : Var) (st : StState) (g : Nat × Nat)
    (h24 : ¬ 24 < g.2) (h2 : ¬ g.2 ≤ 2)
    (hall : (impute_gap_strategy_b st.1 g.1 g.2 var profiles).all Option.isNone) :
    gapStep profiles var st g = st := by
  unfold gapStep
  rw [if_neg h24]
  simp only [if_neg h2]
  rw [if_pos hall]

/-! ### Concrete scenario data -/

/-- Station frame for the Strategy B blend scenario: an 8-row day with a
6-hour temperature gap between valid readings 26 and 24. -/
def rowsC1 : List Row :=
  [⟨7, 0, 1, 0, some 26, some 50, some 1⟩,
   ⟨7, 1, 1, 1, none, some 50, some 1⟩,
   ⟨7, 2, 1, 2, none, some 50, some 1⟩,
   ⟨7, 3, 1, 3, none, some 50, some 1⟩,
   ⟨7, 4, 1, 4, none, some 50, some 1⟩,
   ⟨7, 5, 1, 5, none, some 50, some 1⟩,
   ⟨7, 6, 1, 6, none, some 50, some 1⟩,
   ⟨7, 7, 1, 7, some 24, some 50, some 1⟩]

/-- Profile table for the Strategy B blend scenario: temperature profile
25 at the boundary hours and [25, 26, 27, 28, 27, 26] across the gap. -/
def profC1 : Profiles := fun v k =>
  match v with
  | Var.temperature =>
      if k.1 = 7 ∧ k.2.1 = 1 then
        if k.2.2 = 0 then some 25
        else if k.2.2 = 1 then some 25
        else if k.2.2 = 2 then some 26
        else if k.2.2 = 3 then some 27
        else if k.2.2 = 4 then some 28
        else if k.2.2 = 5 then some 27
        else if k.2.2 = 6 then some 26
        else if k.2.2 = 7 then some 25
        else none
      else none
  | _ => none

/-- Claim C1: Strategy B fill values.  For any gap of length 3 to 24 with at
least one resolvable profile lookup, the raw filled value at 0-indexed
position i is profile[i] plus: w·before_offset + (1−w)·after_offset with
w = 1 − i/(length−1) when both offsets are present; the single available
offset when only one is present; nothing when neither is.  In particular,
for a gap of length 6 with before_offset +1, after_offset −1 and profile
[25, 26, 27, 28, 27, 26], the fill before clipping is
[26.0, 26.6, 27.2, 27.8, 26.4, 25.0]. -/
theorem C1_strategyB_blend :
    (∀ (rows : List Row) (s l : Nat) (var : Var) (profiles : Profiles) (i : Nat),
      3 ≤ l → l ≤ 24 →
      ¬ (bProfileVals rows s l var profiles).all Option.isNone →
      i < l →
      (strategy_b_raw rows s l var profiles).get? i =
        some (((bProfileVals rows s l var profiles).getD i none).map fun p =>
          match bBeforeOffset rows s var profiles, bAfterOffset rows s l var profiles with
          | some b, some a =>
              p + ((1 - (i : ℚ) / ((l : ℚ) - 1)) * b +
                (1 - (1 - (i : ℚ) / ((l : ℚ) - 1))) * a)
          | some b, none => p + b
          | none, some a => p + a
          | none, none => p)) ∧
    (bProfileVals rowsC1 1 6 Var.temperature profC1 =
        [some 25, some 26, some 27, some 28, some 27, some 26] ∧
      bBeforeOffset rowsC1 1 Var.temperature profC1 = some 1 ∧
      bAfterOffset rowsC1 1 6 Var.temperature profC1 = some (-1) ∧
      strategy_b_raw rowsC1 1 6 Var.temperature profC1 =
        [some 26, some (133/5), some (136/5), some (139/5), some (132/5), some 25]) := by
  constructor
  · intro rows s l var profiles i h3 h24 hnall hi
    rw [strategy_b_raw_get? rows s l var profiles hi]
    cases hgd : (bProfileVals rows s l var profiles).getD i none with
    | none => simp
    | some p =>
        simp only [Option.map_some', Option.some.injEq]
        unfold bOffsets
        cases hbo : bBeforeOffset rows s var profiles <;>
          cases hao : bAfterOffset rows s l var profiles <;> simp only
        · exact add_zero p
        · rw [linspace_getD 1 0 hi]
          ring_nf
  · refine ⟨?_, ?_, ?_, ?_⟩ <;>
      norm_num [rowsC1, profC1, bProfileVals, bStation, bBeforeOffset, bAfterOffset,
        bBeforeProfile, bAfterProfile, beforeValAt, afterValAt, bOffsets, strategy_b_raw,
        linspace, Row.getVar, List.range_succ]

/-- Frame for the Strategy A scenario: temperature boundary values 20 and
24 around a 2-hour gap, other variables fully observed. -/
def rowsC2 : List Row :=
  [⟨0, 0, 1, 0, some 20, some 50, some 1⟩,
   ⟨0, 1, 1, 1, none, some 50, some 1⟩,
   ⟨0, 2, 1, 2, none, some 50, some 1⟩,
   ⟨0, 3, 1, 3, some 24, some 50, some 1⟩]

/-- Empty profile table (no diurnal data at any key). -/
def profNone : Profiles := fun _ _ => none

/-- Claim C2: Strategy A fill values.  With both boundary values present the
gap of length 1 or 2 is filled with the interior points of the even
(length+1)-way division of [before, after]; with one boundary present every
position gets that value; with neither the gap is left unfilled and the
step emits no record.  In particular boundaries 20 and 24 with gap length 2
give fills 64/3 and 68/3 — 21.33 and 22.67 to two decimals — both
tagged A. -/
theorem C2_strategyA_interpolation :
    (∀ (rows : List Row) (v : Var) (s l : Nat) (b a : ℚ),
      beforeValAt rows v s = some b → afterValAt rows v s l = some a →
      strategyA rows v s l =
        some ((List.range l).map fun (i : Nat) =>
          b + (a - b) * ((i : ℚ) + 1) / ((l : ℚ) + 1))) ∧
    (∀ (rows : List Row) (v : Var) (s l : Nat) (b : ℚ),
      beforeValAt rows v s = some b → afterValAt rows v s l = none →
      strategyA rows v s l = some (List.replicate l b)) ∧
    (∀ (rows : List Row) (v : Var) (s l : Nat) (a : ℚ),
      beforeValAt rows v s = none → afterValAt rows v s l = some a →
      strategyA rows v s l = some (List.replicate l a)) ∧
    (∀ (profiles : Profiles) (var : Var) (st : StState) (s l : Nat),
      l ≤ 2 → ¬ 24 < l →
      beforeValAt st.1 var s = none → afterValAt st.1 var s l = none →
      gapStep profiles var st (s, l) = st) ∧
    (impute_station profNone rowsC2 =
        ([⟨0, 0, 1, 0, some 20, some 50, some 1⟩,
          ⟨0, 1, 1, 1, some (64/3), some 50, some 1⟩,
          ⟨0, 2, 1, 2, some (68/3), some 50, some 1⟩,
          ⟨0, 3, 1, 3, some 24, some 50, some 1⟩],
         [[], [(Var.temperature, Strat.A)], [(Var.temperature, Strat.A)], []]) ∧
      (64/3 : ℚ) - 2133/100 = 1/300 ∧ (2267/100 : ℚ) - 68/3 = 1/300) := by
  refine ⟨strategyA_both, strategyA_before_only, strategyA_after_only, ?_, ?_, ?_, ?_⟩
  · intro profiles var st s l h2 h24 hb ha
    exact gapStep_skip_A profiles var st (s, l) h24 h2 (strategyA_none st.1 var s l hb ha)
  · norm_num [impute_station, IMPUTE_VARS, processVar, maskOf, find_gaps, find_gaps_go,
      gapStep, strategyA, beforeValAt, afterValAt, impute_gap_strategy_b, strategy_b_raw,
      bProfileVals, bStation, setCells, addTags, Row.getVar, Row.setVar, clipVar, linspace,
      List.range_succ, rowsC2, profNone]
  · norm_num
  · norm_num

theorem gapFill_strat {base : List Row} {profiles : Profiles} {v : Var} {s l : Nat}
    {vals : List (Option ℚ)} {st : Strat} (h : gapFill base profiles v s l = some (vals, st)) :
    l ≤ 24 ∧ (st = Strat.A ↔ l ≤ 2) := by
  unfold gapFill at h
  by_cases h24 : 24 < l
  · rw [if_pos h24] at h
    simp at h
  · refine ⟨by omega, ?_⟩
    rw [if_neg h24] at h
    by_cases h2 : l ≤ 2
    · rw [if_pos h2] at h
      rcases hA : strategyA base v s l with _ | vs <;> rw [hA] at h
      · simp at h
      · simp only [Option.map_some', Option.some.injEq, Prod.mk.injEq] at h
        rw [← h.2]
        simp [h2]
    · rw [if_neg h2] at h
      simp only at h
      by_cases hall : (impute_gap_strategy_b base s l v profiles).all Option.isNone
      · rw [if_pos hall] at h
        simp at h
      · rw [if_neg hall] at h
        simp only [Option.some.injEq, Prod.mk.injEq] at h
        rw [← h.2]
        constructor
        · intro hab
          exact absurd hab (by simp)
        · intro hl
          omega

/-- Frame for the provenance counterexample: a 3-hour temperature gap whose
middle position has no profile data while the outer two do. -/
def rowsC3 : List Row :=
  [⟨0, 0, 1, 0, some 20, some 50, some 1⟩,
   ⟨0, 1, 1, 1, none, some 50, some 1⟩,
   ⟨0, 2, 1, 2, none, some 50, some 1⟩,
   ⟨0, 3, 1, 3, none, some 50, some 1⟩,
   ⟨0, 4, 1, 4, some 24, some 50, some 1⟩]

/-- Profile table with temperature data at hours 1 and 3 only. -/
def profC3 : Profiles := fun v k =>
  match v with
  | Var.temperature =>
      if k.1 = 0 ∧ k.2.1 = 1 then
        if k.2.2 = 1 then some 21 else if k.2.2 = 3 then some 23 else none
      else none
  | _ => none

/-- Claim C3 counterexample: in a partially resolved Strategy-B gap the cell
at index 2 stays missing, yet its provenance record carries the entry
temperature:B — a cell that is not filled does have an entry, contradicting
the claim as stated. -/
theorem C3_counterexample :
    (rowsC3.get? 2).map (fun r => r.getVar Var.temperature) = some none ∧
    ((impute_station profC3 rowsC3).1.get? 2).map (fun r => r.getVar Var.temperature) =
      some none ∧
    (impute_station profC3 rowsC3).2.get? 2 = some [(Var.temperature, Strat.B)] := by
  refine ⟨rfl, ?_, ?_⟩ <;>
    norm_num [impute_station, IMPUTE_VARS, processVar, maskOf, find_gaps, find_gaps_go,
      gapStep, strategyA, beforeValAt, afterValAt, impute_gap_strategy_b, strategy_b_raw,
      bProfileVals, bStation, bOffsets, bBeforeOffset, bAfterOffset, bBeforeProfile,
      bAfterProfile, setCells, addTags, Row.getVar, Row.setVar, clipVar, linspace,
      List.range_succ, rowsC3, profC3]

/-- Claim C3 amended: the provenance record of every row lists, in variable
configuration order, exactly one entry per variable whose covering gap was
processed (specTags).  Every filled cell has exactly one entry for its
variable, with letter A exactly when its gap has length at most 2; a valid
(never missing) cell has no entry; but a position of a partially resolved
Strategy-B gap carries the B entry even though it remains unfilled. -/
theorem C3_provenance_amended :
    (∀ (profiles : Profiles) (rows : List Row) (i : Nat), i < rows.length →
      (impute_station profiles rows).2.get? i = some (specTags rows profiles i)) ∧
    (∀ (profiles : Profiles) (rows : List Row) (v : Var) (i : Nat) (r : Row) (q : ℚ),
      rows.get? i = some r → r.getVar v = none →
      ((impute_station profiles rows).1.get? i).map (fun r => r.getVar v) = some (some q) →
      ∃ s l vals st, (s, l) ∈ find_gaps (maskOf rows v) ∧ s ≤ i ∧ i < s + l ∧
        gapFill rows profiles v s l = some (vals, st) ∧ l ≤ 24 ∧ (st = Strat.A ↔ l ≤ 2) ∧
        (specTags rows profiles i).filter (fun t => t.1 == v) = [(v, st)]) ∧
    (∀ (profiles : Profiles) (rows : List Row) (v : Var) (i : Nat) (r : Row),
      rows.get? i = some r → (r.getVar v).isSome →
      (specTags rows profiles i).filter (fun t => t.1 == v) = []) := by
  refine ⟨master_tags, ?_, ?_⟩
  · intro profiles rows v i r q hr hmiss hout
    rw [master_col profiles rows v i] at hout
    cases ht : tagVal rows profiles v i with
    | none =>
        rw [ht, hr] at hout
        simp [hmiss] at hout
    | some p =>
        obtain ⟨s, l, vals, st, hg, h1, h2, hfill, hp⟩ := tagVal_some_elim ht
        obtain ⟨h24, hiff⟩ := gapFill_strat hfill
        refine ⟨s, l, vals, st, hg, h1, h2, hfill, h24, hiff, ?_⟩
        rw [specTags_filter, ht, hp]
  · intro profiles rows v i r hr hv
    rw [specTags_filter, tagVal_none_of_valid profiles rows v hr hv]

/-- Claim C4: graceful partial resolution in Strategy B.  A gap of length
3-24 yields an all-missing fill exactly when every position's profile
lookup is absent, and in that case the per-gap step leaves the working
state untouched (all original markers retained); otherwise every position
is resolved independently: a position with an absent lookup keeps its
missing marker while a position with profile value p is filled with the
clipped p plus blended offset. -/
theorem C4_partial_resolution :
    (∀ (rows : List Row) (s l : Nat) (var : Var) (profiles : Profiles),
      3 ≤ l → l ≤ 24 →
      ((impute_gap_strategy_b rows s l var profiles).all Option.isNone ↔
        (bProfileVals rows s l var profiles).all Option.isNone)) ∧
    (∀ (profiles : Profiles) (var : Var) (st : StState) (s l : Nat),
      3 ≤ l → l ≤ 24 →
      (impute_gap_strategy_b st.1 s l var profiles).all Option.isNone →
      gapStep profiles var st (s, l) = st) ∧
    (∀ (rows : List Row) (s l : Nat) (var : Var) (profiles : Profiles) (i : Nat),
      3 ≤ l → l ≤ 24 → i < l →
      ((bProfileVals rows s l var profiles).getD i none = none →
        (impute_gap_strategy_b rows s l var profiles).get? i = some none) ∧
      (∀ p, (bProfileVals rows s l var profiles).getD i none = some p →
        (impute_gap_strategy_b rows s l var profiles).get? i =
          some (some (clipVar var (p + bOffsets rows s l var profiles i))))) := by
  refine ⟨?_, ?_, ?_⟩
  · intro rows s l var profiles _ _
    exact strategy_b_all_none_iff rows s l var profiles
  · intro profiles var st s l h3 h24 hall
    exact gapStep_skip_B profiles var st (s, l) (by simp; omega) (by simp; omega) hall
  · intro rows s l var profiles i _ _ hi
    constructor
    · intro hnone
      rw [impute_gap_strategy_b_get? rows s l var profiles hi, hnone]
      rfl
    · intro p hp
      rw [impute_gap_strategy_b_get? rows s l var profiles hi, hp]
      rfl

/-- Frame for the clipping scenario: an rh gap behind a boundary value 100
whose profile offset pushes the first filled value to 104.3. -/
def rowsC5 : List Row :=
  [⟨0, 0, 1, 0, some 25, some 100, some 1⟩,
   ⟨0, 1, 1, 1, some 25, none, some 1⟩,
   ⟨0, 2, 1, 2, some 25, none, some 1⟩,
   ⟨0, 3, 1, 3, some 25, none, some 1⟩,
   ⟨0, 4, 1, 4, some 25, some 90, some 1⟩]

/-- Profile table for the clipping scenario: rh profile 95 at the before
boundary (offset +5) and 99.3 at the first gap hour. -/
def profC5 : Profiles := fun v k =>
  match v with
  | Var.rh =>
      if k.1 = 0 ∧ k.2.1 = 1 then
        if k.2.2 = 0 then some 95
        else if k.2.2 = 1 then some (993/10)
        else if k.2.2 = 2 then some 50
        else if k.2.2 = 3 then some 50
        else none
      else none
  | _ => none

/-- Claim C5: bounds enforcement.  Every relative-humidity value the engine
fills lies in [0, 100] and every filled wind-speed value is nonnegative;
temperature is unconstrained (its clip is the identity).  The clipping rule
is the single clipVar function regardless of strategy.  In particular an rh
fill computed as 104.3 before clipping is written as exactly 100. -/
theorem C5_bounds_enforcement :
    (∀ (profiles : Profiles) (rows : List Row) (i : Nat) (r : Row) (q : ℚ),
      rows.get? i = some r → r.getVar Var.rh = none →
      ((impute_station profiles rows).1.get? i).map (fun r => r.getVar Var.rh) =
        some (some q) →
      0 ≤ q ∧ q ≤ 100) ∧
    (∀ (profiles : Profiles) (rows : List Row) (i : Nat) (r : Row) (q : ℚ),
      rows.get? i = some r → r.getVar Var.wind_speed = none →
      ((impute_station profiles rows).1.get? i).map (fun r => r.getVar Var.wind_speed) =
        some (some q) →
      0 ≤ q) ∧
    (∀ x : ℚ, clipVar Var.temperature x = x) ∧
    ((strategy_b_raw rowsC5 1 3 Var.rh profC5).get? 0 = some (some (1043/10)) ∧
      (impute_gap_strategy_b rowsC5 1 3 Var.rh profC5).get? 0 = some (some 100) ∧
      ((impute_station profC5 rowsC5).1.get? 1).map (fun r => r.getVar Var.rh) =
        some (some 100)) := by
  refine ⟨?_, ?_, fun x => rfl, ?_, ?_, ?_⟩
  · intro profiles rows i r q hr hmiss hout
    obtain ⟨x, hx⟩ := filled_value_clipped profiles rows Var.rh hr hmiss hout
    rw [hx]
    exact clipVar_rh_bounds x
  · intro profiles rows i r q hr hmiss hout
    obtain ⟨x, hx⟩ := filled_value_clipped profiles rows Var.wind_speed hr hmiss hout
    rw [hx]
    exact clipVar_ws_nonneg x
  all_goals
    norm_num [impute_station, IMPUTE_VARS, processVar, maskOf, find_gaps, find_gaps_go,
      gapStep, strategyA, beforeValAt, afterValAt, impute_gap_strategy_b, strategy_b_raw,
      bProfileVals, bStation, bOffsets, bBeforeOffset, bAfterOffset, bBeforeProfile,
      bAfterProfile, setCells, addTags, Row.getVar, Row.setVar, clipVar, linspace,
      List.range_succ, rowsC5, profC5]

/-- Frame for the long-gap scenario: a 30-hour temperature gap between
valid readings at the ends; rh and wind speed fully observed. -/
def rowsC6 : List Row :=
  [⟨0, 0, 1, 0, some 20, some 50, some 1⟩,
   ⟨0, 1, 1, 1, none, some 50, some 1⟩,
   ⟨0, 2, 1, 2, none, some 50, some 1⟩,
   ⟨0, 3, 1, 3, none, some 50, some 1⟩,
   ⟨0, 4, 1, 4, none, some 50, some 1⟩,
   ⟨0, 5, 1, 5, none, some 50, some 1⟩,
   ⟨0, 6, 1, 6, none, some 50, some 1⟩,
   ⟨0, 7, 1, 7, none, some 50, some 1⟩,
   ⟨0, 8, 1, 8, none, some 50, some 1⟩,
   ⟨0, 9, 1, 9, none, some 50, some 1⟩,
   ⟨0, 10, 1, 10, none, some 50, some 1⟩,
   ⟨0, 11, 1, 11, none, some 50, some 1⟩,
   ⟨0, 12, 1, 12, none, some 50, some 1⟩,
   ⟨0, 13, 1, 13, none, some 50, some 1⟩,
   ⟨0, 14, 1, 14, none, some 50, some 1⟩,
   ⟨0, 15, 1, 15, none, some 50, some 1⟩,
   ⟨0, 16, 1, 16, none, some 50, some 1⟩,
   ⟨0, 17, 1, 17, none, some 50, some 1⟩,
   ⟨0, 18, 1, 18, none, some 50, some 1⟩,
   ⟨0, 19, 1, 19, none, some 50, some 1⟩,
   ⟨0, 20, 1, 20, none, some 50, some 1⟩,
   ⟨0, 21, 1, 21, none, some 50, some 1⟩,
   ⟨0, 22, 1, 22, none, some 50, some 1⟩,
   ⟨0, 23, 1, 23, none, some 50, some 1⟩,
   ⟨0, 24, 1, 0, none, some 50, some 1⟩,
   ⟨0, 25, 1, 1, none, some 50, some 1⟩,
   ⟨0, 26, 1, 2, none, some 50, some 1⟩,
   ⟨0, 27, 1, 3, none, some 50, some 1⟩,
   ⟨0, 28, 1, 4, none, some 50, some 1⟩,
   ⟨0, 29, 1, 5, none, some 50, some 1⟩,
   ⟨0, 30, 1, 6, none, some 50, some 1⟩,
   ⟨0, 31, 1, 7, some 21, some 50, some 1⟩]

/-- Claim C6: frame condition.  Valid cells are never changed by the
imputation; a variable's pass never touches another variable's column; every
position of a gap longer than 24 keeps its missing marker and has no
provenance entry for that variable; two inputs that agree on a variable's
column and on the row structure get identical outputs for that column, no
matter how the other columns differ; and the concrete 30-hour gap leaves
the whole frame unchanged with empty provenance everywhere. -/
theorem C6_frame_condition :
    (∀ (profiles : Profiles) (rows : List Row) (v : Var) (i : Nat) (r : Row) (q : ℚ),
      rows.get? i = some r → r.getVar v = some q →
      ((impute_station profiles rows).1.get? i).map (fun r => r.getVar v) = some (some q)) ∧
    (∀ (profiles : Profiles) (base : List Row) (curM : List (List (Var × Strat)))
        (var w : Var), w ≠ var →
      ∀ i, ((processVar profiles (base, curM) var).1.get? i).map (fun r => r.getVar w) =
        (base.get? i).map (fun r => r.getVar w)) ∧
    (∀ (profiles : Profiles) (rows : List Row) (v : Var) (s l : Nat),
      (s, l) ∈ find_gaps (maskOf rows v) → 24 < l →
      ∀ i, s ≤ i → i < s + l →
        ((impute_station profiles rows).1.get? i).map (fun r => r.getVar v) = some none ∧
        (specTags rows profiles i).filter (fun t => t.1 == v) = []) ∧
    (∀ (profiles : Profiles) (rows rows' : List Row) (v : Var),
      MetaEq rows rows' →
      (∀ i, (rows'.get? i).map (fun r => r.getVar v) =
        (rows.get? i).map (fun r => r.getVar v)) →
      ∀ i, ((impute_station profiles rows').1.get? i).map (fun r => r.getVar v) =
        ((impute_station profiles rows).1.get? i).map (fun r => r.getVar v)) ∧
    (impute_station profNone rowsC6 = (rowsC6, List.replicate 32 [])) := by
  refine ⟨?_, ?_, ?_, ?_, ?_⟩
  · intro profiles rows v i r q hr hq
    exact impute_station_valid_unchanged profiles rows v hr hq
  · intro profiles base curM var w hw
    exact processVar_colEq profiles base curM var w hw
  · intro profiles rows v s l hg h24 i h1 h2
    have hfillnone : gapFill rows profiles v s l = none := by
      unfold gapFill
      rw [if_pos h24]
    have htv : tagVal rows profiles v i = none := by
      rw [tagVal_at_gap profiles rows v hg h1 h2, hfillnone]
      rfl
    have hmask := (find_gaps_spec (maskOf rows v) (s, l) hg).2.2.1 i h1 h2
    rw [maskOf_get?] at hmask
    obtain ⟨r, hr⟩ : ∃ r, rows.get? i = some r := by
      cases hc : rows.get? i with
      | none => rw [hc] at hmask; simp at hmask
      | some r => exact ⟨r, rfl⟩
    rw [hr] at hmask
    simp only [Option.map_some', Option.some.injEq] at hmask
    have hrnone : r.getVar v = none := by
      rwa [Option.isNone_iff_eq_none] at hmask
    constructor
    · rw [master_col profiles rows v i, htv, hr]
      simp [hrnone]
    · rw [specTags_filter, htv]
  · intro profiles rows rows' v hm hcol i
    rw [master_col profiles rows v i, master_col profiles rows' v i,
      tagVal_congr profiles v hm hcol i]
    cases tagVal rows profiles v i with
    | some p => exact map_const_congr (hm i) p.1
    | none => exact hcol i
  · norm_num [impute_station, IMPUTE_VARS, processVar, maskOf, find_gaps, find_gaps_go,
      gapStep, strategyA, beforeValAt, afterValAt, impute_gap_strategy_b, strategy_b_raw,
      bProfileVals, bStation, bOffsets, bBeforeOffset, bAfterOffset, bBeforeProfile,
      bAfterProfile, setCells, addTags, Row.getVar, Row.setVar, clipVar, linspace,
      List.range_succ, List.replicate, rowsC6, profNone]

/-- Valid (non-missing) observations of a variable at one
(station, month, hour) key of a dataset. -/
def validObs (df : List Row) (var : Var) (st mo hr : Nat) : List ℚ :=
  df.filterMap fun r =>
    if r.station = st ∧ r.month = mo ∧ r.hour = hr then r.getVar var else none

/-- Claim C7: the diurnal profile maps a key to the arithmetic mean of the
valid observations at that key in the input dataset; a key with no valid
observation behaves as no data, and in particular leaves a Strategy-B
position unfilled; and the engine run builds the profile table once from
the full input and hands that same table to every station, so lookups never
reflect values filled during the run. -/
theorem C7_static_profile :
    (∀ (df : List Row) (var : Var) (st mo hr : Nat),
      build_diurnal_profiles df var (st, mo, hr) = none ↔ validObs df var st mo hr = []) ∧
    (∀ (df : List Row) (var : Var) (st mo hr : Nat) (q : ℚ),
      build_diurnal_profiles df var (st, mo, hr) = some q →
      validObs df var st mo hr ≠ [] ∧
      q = (validObs df var st mo hr).sum / ((validObs df var st mo hr).length : ℚ) ∧
      q * ((validObs df var st mo hr).length : ℚ) = (validObs df var st mo hr).sum) ∧
    (∀ (df rows : List Row) (var : Var) (s l i : Nat), i < l →
      (∀ r, rows.get? (s + i) = some r →
        build_diurnal_profiles df var (bStation rows, r.month, r.hour) = none) →
      (impute_gap_strategy_b rows s l var (build_diurnal_profiles df)).get? i = some none) ∧
    (∀ stations : List (List Row),
      imputeRun stations =
        stations.map (impute_station (build_diurnal_profiles stations.flatten))) := by
  refine ⟨?_, ?_, ?_, fun _ => rfl⟩
  · intro df var st mo hr
    show (if (validObs df var st mo hr).length = 0 then none
      else some ((validObs df var st mo hr).sum / ((validObs df var st mo hr).length : ℚ))) =
        none ↔ _
    by_cases h : (validObs df var st mo hr).length = 0
    · rw [if_pos h]
      simp [List.length_eq_zero.mp h]
    · rw [if_neg h]
      constructor
      · intro contra
        simp at contra
      · intro hnil
        rw [hnil] at h
        simp at h
  · intro df var st mo hr q hq
    have hshape : (if (validObs df var st mo hr).length = 0 then none
        else some ((validObs df var st mo hr).sum /
          ((validObs df var st mo hr).length : ℚ))) = some q := hq
    by_cases h : (validObs df var st mo hr).length = 0
    · rw [if_pos h] at hshape
      simp at hshape
    · rw [if_neg h] at hshape
      rw [Option.some_inj] at hshape
      have hne : ((validObs df var st mo hr).length : ℚ) ≠ 0 := by
        exact_mod_cast h
      refine ⟨?_, hshape.symm, ?_⟩
      · intro hnil
        rw [hnil] at h
        simp at h
      · rw [← hshape, div_mul_cancel₀ _ hne]
  · intro df rows var s l i hi hnone
    rw [impute_gap_strategy_b_get? rows s l var (build_diurnal_profiles df) hi]
    have hgd : (bProfileVals rows s l var (build_diurnal_profiles df)).getD i none = none := by
      rw [List.getD_eq_getElem?_getD, ← List.get?_eq_getElem?]
      unfold bProfileVals
      rw [List.get?_map, List.get?_range hi]
      simp only [Option.map_some', Option.getD_some]
      cases hc : rows.get? (s + i) with
      | none => rfl
      | some r => exact hnone r hc
    rw [hgd]
    rfl

theorem imputeRun_eq (stations : List (List Row)) :
    imputeRun stations =
      stations.map (impute_station (build_diurnal_profiles stations.flatten)) := rfl

/-- Single-station dataset for the idempotence counterexample: two six-hour
days; day one misses hour 3 only, day two misses hours 2-4, so hour 3 has
no profile data at all. -/
def rowsC8 : List Row :=
  [⟨0, 0, 1, 0, some 20, some 50, some 1⟩,
   ⟨0, 1, 1, 1, some 21, some 50, some 1⟩,
   ⟨0, 2, 1, 2, some 22, some 50, some 1⟩,
   ⟨0, 3, 1, 3, none, some 50, some 1⟩,
   ⟨0, 4, 1, 4, some 24, some 50, some 1⟩,
   ⟨0, 5, 1, 5, some 25, some 50, some 1⟩,
   ⟨0, 6, 1, 0, some 20, some 50, some 1⟩,
   ⟨0, 7, 1, 1, some 21, some 50, some 1⟩,
   ⟨0, 8, 1, 2, none, some 50, some 1⟩,
   ⟨0, 9, 1, 3, none, some 50, some 1⟩,
   ⟨0, 10, 1, 4, none, some 50, some 1⟩,
   ⟨0, 11, 1, 5, some 25, some 50, some 1⟩]

def stationsC8 : List (List Row) := [rowsC8]

/-- Claim C8 counterexample: running the engine on its own output does
produce further changes.  After the first run, index 9 (the profile-less
middle of a partially resolved Strategy-B gap) is still missing; the second
run sees it as a fresh 1-hour gap between two values filled by the first
run and fills it with 23 by Strategy A. -/
theorem C8_counterexample :
    (((imputeRun stationsC8).get? 0).bind (fun p => p.1.get? 9)).map
        (fun r => r.getVar Var.temperature) = some none ∧
    (((imputeRun ((imputeRun stationsC8).map Prod.fst)).get? 0).bind
        (fun p => p.1.get? 9)).map (fun r => r.getVar Var.temperature) = some (some 23) := by
  constructor <;>
    norm_num [imputeRun, build_diurnal_profiles, impute_station, IMPUTE_VARS, processVar,
      maskOf, find_gaps, find_gaps_go, gapStep, strategyA, beforeValAt, afterValAt,
      impute_gap_strategy_b, strategy_b_raw, bProfileVals, bStation, bOffsets,
      bBeforeOffset, bAfterOffset, bBeforeProfile, bAfterProfile, setCells, addTags,
      Row.getVar, Row.setVar, clipVar, linspace, List.range_succ, List.all_cons,
      List.all_nil, List.filterMap_cons, List.filterMap_nil, Option.isNone_none,
      Option.isNone_some, stationsC8, rowsC8, -List.all_eq_true, -List.length_eq_zero]

/-- Claim C8 amended: a second run of the engine on its own output never
changes a cell that is valid after the first run — already-filled cells are
never re-imputed — though cells still missing after the first run can be
filled by the second run, as the counterexample shows. -/
theorem C8_second_run_preserves :
    ∀ (stations : List (List Row)) (k i : Nat) (r : Row) (q : ℚ) (v : Var),
      ((imputeRun stations).get? k).bind (fun p => p.1.get? i) = some r →
      r.getVar v = some q →
      (((imputeRun ((imputeRun stations).map Prod.fst)).get? k).bind
        (fun p => p.1.get? i)).map (fun rr => rr.getVar v) = some (some q) := by
  intro stations k i r q v h1 h2
  rw [imputeRun_eq, List.get?_map] at h1
  cases hs : stations.get? k with
  | none =>
      rw [hs] at h1
      simp at h1
  | some rows =>
      rw [hs] at h1
      simp only [Option.map_some', Option.some_bind] at h1
      rw [imputeRun_eq ((imputeRun stations).map Prod.fst), List.get?_map]
      have hXk : ((imputeRun stations).map Prod.fst).get? k =
          some (impute_station (build_diurnal_profiles stations.flatten) rows).1 := by
        rw [List.get?_map, imputeRun_eq, List.get?_map, hs]
        rfl
      rw [hXk]
      simp only [Option.map_some', Option.some_bind]
      exact impute_station_valid_unchanged _ _ v h1 h2

theorem C8_second_run_preserves_witness :
    (((imputeRun ((imputeRun stationsC8).map Prod.fst)).get? 0).bind
      (fun p => p.1.get? 0)).map (fun rr => rr.getVar Var.temperature) = some (some 20) :=
  C8_second_run_preserves stationsC8 0 0 ⟨0, 0, 1, 0, some 20, some 50, some 1⟩ 20
    Var.temperature
    (by norm_num [imputeRun, build_diurnal_profiles, impute_station, IMPUTE_VARS, processVar,
      maskOf, find_gaps, find_gaps_go, gapStep, strategyA, beforeValAt, afterValAt,
      impute_gap_strategy_b, strategy_b_raw, bProfileVals, bStation, bOffsets,
      bBeforeOffset, bAfterOffset, bBeforeProfile, bAfterProfile, setCells, addTags,
      Row.getVar, Row.setVar, clipVar, linspace, List.range_succ, List.all_cons,
      List.all_nil, List.filterMap_cons, List.filterMap_nil, Option.isNone_none,
      Option.isNone_some, stationsC8, rowsC8, -List.all_eq_true, -List.length_eq_zero])
    rfl

/-- Frame with duplicate timestamps: rows 1 and 2 carry the same date. -/
def rowsC9 : List Row :=
  [⟨0, 0, 1, 0, some 20, some 50, some 1⟩,
   ⟨0, 1, 1, 1, none, some 50, some 1⟩,
   ⟨0, 1, 1, 1, none, some 50, some 1⟩,
   ⟨0, 2, 1, 2, some 24, some 50, some 1⟩]

/-- Claim C9 counterexample: on an input whose rows 1 and 2 share the same
timestamp the engine does not reject anything — it runs to completion,
returns a full-length output and fills the duplicate-timestamp gap by
Strategy A. -/
theorem C9_counterexample :
    (rowsC9.get? 1).map Row.date = some 1 ∧
    (rowsC9.get? 2).map Row.date = some 1 ∧
    (impute_station profNone rowsC9).1.length = 4 ∧
    ((impute_station profNone rowsC9).1.get? 1).map (fun r => r.getVar Var.temperature) =
      some (some (64/3)) ∧
    ((impute_station profNone rowsC9).1.get? 2).map (fun r => r.getVar Var.temperature) =
      some (some (68/3)) := by
  refine ⟨rfl, rfl, ?_, ?_, ?_⟩
  · rw [impute_station_length]
    rfl
  all_goals
    norm_num [impute_station, IMPUTE_VARS, processVar, maskOf, find_gaps, find_gaps_go,
      gapStep, strategyA, beforeValAt, afterValAt, impute_gap_strategy_b, strategy_b_raw,
      bProfileVals, bStation, setCells, addTags, Row.getVar, Row.setVar, clipVar, linspace,
      List.range_succ, rowsC9, profNone]

/-- Claim C9 amended: the engine performs no timestamp validation and has no
rejection path — every input, well-formed or not, is processed in full:
the output frame has one row per input row with every valid cell preserved,
the empty series yields the empty output, and unresolvable gaps are
silently skipped (state unchanged) rather than raising. -/
theorem C9_no_rejection_amended :
    (∀ (profiles : Profiles) (rows : List Row),
      (impute_station profiles rows).1.length = rows.length) ∧
    (∀ (profiles : Profiles) (rows : List Row) (v : Var) (i : Nat) (r : Row) (q : ℚ),
      rows.get? i = some r → r.getVar v = some q →
      ((impute_station profiles rows).1.get? i).map (fun r => r.getVar v) = some (some q)) ∧
    (∀ profiles : Profiles, impute_station profiles [] = ([], [])) ∧
    (∀ (profiles : Profiles) (var : Var) (st : StState) (s l : Nat),
      l ≤ 2 → beforeValAt st.1 var s = none → afterValAt st.1 var s l = none →
      gapStep profiles var st (s, l) = st) ∧
    (∀ (profiles : Profiles) (var : Var) (st : StState) (s l : Nat),
      2 < l → l ≤ 24 →
      (impute_gap_strategy_b st.1 s l var profiles).all Option.isNone →
      gapStep profiles var st (s, l) = st) := by
  refine ⟨impute_station_length, ?_, fun _ => rfl, ?_, ?_⟩
  · intro profiles rows v i r q hr hq
    exact impute_station_valid_unchanged profiles rows v hr hq
  · intro profiles var st s l h2 hb ha
    exact gapStep_skip_A profiles var st (s, l) (by simp; omega) h2
      (strategyA_none st.1 var s l hb ha)
  · intro profiles var st s l h2 h24 hall
    exact gapStep_skip_B profiles var st (s, l) (by simp; omega) (by simp; omega) hall

/-- Claim C10 counterexample: the claimed input does not exist.  For every
input, every variable and every gap with a predecessor, the cell just
before the gap holds an originally-observed (valid) value and is returned
unchanged by the engine, so the before value a strategy reads is never a
value imputed earlier in the same run. -/
theorem C10_counterexample :
    (∃ (profiles : Profiles) (rows : List Row) (v : Var) (s l : Nat),
      (s, l) ∈ find_gaps (maskOf rows v) ∧ 0 < s ∧
      ((rows.get? (s - 1)).map (fun r => (r.getVar v).isSome) ≠ some true ∨
        ((impute_station profiles rows).1.get? (s - 1)).map (fun r => r.getVar v) ≠
          (rows.get? (s - 1)).map (fun r => r.getVar v))) ↔ False := by
  rw [iff_false]
  rintro ⟨profiles, rows, v, s, l, hg, hs, hbad⟩
  have hOK := find_gaps_spec _ _ hg
  have hmaskF : (maskOf rows v).get? (s - 1) = some false := by
    rcases hOK.2.2.2.1 with h | h
    · omega
    · exact h
  rw [maskOf_get?] at hmaskF
  obtain ⟨r, hr⟩ : ∃ r, rows.get? (s - 1) = some r := by
    cases hc : rows.get? (s - 1) with
    | none => rw [hc] at hmaskF; simp at hmaskF
    | some r => exact ⟨r, rfl⟩
  rw [hr] at hmaskF
  simp only [Option.map_some', Option.some.injEq] at hmaskF
  obtain ⟨q, hq⟩ : ∃ q, r.getVar v = some q := by
    cases hv : r.getVar v with
    | none => rw [hv] at hmaskF; simp at hmaskF
    | some q => exact ⟨q, rfl⟩
  rcases hbad with hbad | hbad
  · rw [hr] at hbad
    simp [hq] at hbad
  · rw [impute_station_valid_unchanged profiles rows v hr hq, hr] at hbad
    simp [hq] at hbad

/-- Claim C10 amended: gaps are processed left to right on a mutating frame,
but the outcome of every cell is fully determined by gap specifications
computed on the original input frame, and the boundary cells next to every
gap hold originally-observed values that the run returns unchanged — fills
never feed forward as boundary values of later gaps. -/
theorem C10_boundaries_original_amended :
    (∀ (profiles : Profiles) (rows : List Row) (v : Var) (i : Nat),
      ((impute_station profiles rows).1.get? i).map (fun r => r.getVar v) =
        match tagVal rows profiles v i with
        | some p => (rows.get? i).map (fun _ => p.1)
        | none => (rows.get? i).map (fun r => r.getVar v)) ∧
    (∀ (profiles : Profiles) (rows : List Row) (v : Var) (s l : Nat),
      (s, l) ∈ find_gaps (maskOf rows v) →
      (0 < s → ∃ r q, rows.get? (s - 1) = some r ∧ r.getVar v = some q ∧
        ((impute_station profiles rows).1.get? (s - 1)).map (fun r => r.getVar v) =
          some (some q)) ∧
      (s + l < rows.length → ∃ r q, rows.get? (s + l) = some r ∧ r.getVar v = some q ∧
        ((impute_station profiles rows).1.get? (s + l)).map (fun r => r.getVar v) =
          some (some q))) := by
  refine ⟨master_col, ?_⟩
  intro profiles rows v s l hg
  have hOK := find_gaps_spec _ _ hg
  constructor
  · intro hs
    have hmaskF : (maskOf rows v).get? (s - 1) = some false := by
      rcases hOK.2.2.2.1 with h | h
      · omega
      · exact h
    rw [maskOf_get?] at hmaskF
    obtain ⟨r, hr⟩ : ∃ r, rows.get? (s - 1) = some r := by
      cases hc : rows.get? (s - 1) with
      | none => rw [hc] at hmaskF; simp at hmaskF
      | some r => exact ⟨r, rfl⟩
    rw [hr] at hmaskF
    simp only [Option.map_some', Option.some.injEq] at hmaskF
    obtain ⟨q, hq⟩ : ∃ q, r.getVar v = some q := by
      cases hv : r.getVar v with
      | none => rw [hv] at hmaskF; simp at hmaskF
      | some q => exact ⟨q, rfl⟩
    exact ⟨r, q, hr, hq, impute_station_valid_unchanged profiles rows v hr hq⟩
  · intro hsl
    have hmaskR : (maskOf rows v).get? (s + l) = some false := by
      rcases hOK.2.2.2.2 with h | h
      · rw [maskOf_length] at h
        omega
      · exact h
    rw [maskOf_get?] at hmaskR
    obtain ⟨r, hr⟩ : ∃ r, rows.get? (s + l) = some r := by
      cases hc : rows.get? (s + l) with
      | none => rw [hc] at hmaskR; simp at hmaskR
      | some r => exact ⟨r, rfl⟩
    rw [hr] at hmaskR
    simp only [Option.map_some', Option.some.injEq] at hmaskR
    obtain ⟨q, hq⟩ : ∃ q, r.getVar v = some q := by
      cases hv : r.getVar v with
      | none => rw [hv] at hmaskR; simp at hmaskR
      | some q => exact ⟨q, rfl⟩
    exact ⟨r, q, hr, hq, impute_station_valid_unchanged profiles rows v hr hq⟩
